import Mathlib

/-!
Verification of the Dockerfile linter and package-pin validator of the
Final-Year-Project repository.

The development shallowly embeds the relevant source code:

* `src/dockerfile_linter.py` — `DockerfileLinter.lint_file` together with the
  rule/issue data model (`LinterRule`, `LinterIssue`).
* `src/main.py` — `_detect_distro`, `_package_version_ok` and
  `_post_process_optimized_content` (the package-pin validator), including the
  supporting regular expressions (`version_pin_regex`, `apt_install_regex`,
  the `re.sub` pin rewriter with `\b` boundaries) and `fnmatch.fnmatch`.

Python string primitives (`str.strip`, `str.split`, `str.splitlines`,
`str.upper`, substring tests, ...) are modelled as executable functions over
`List Char`; compiled regular expressions appearing in the source are modelled
either as explicit executable matchers (for the concrete patterns written in
the source) or as abstract match functions (the `regex_pattern` field of a
rule, which the source treats as an opaque `search` capability).
-/

/-! ## Python string primitives -/

/-- The whitespace characters stripped by Python `str.strip()` / matched by
`\s` (ASCII range): space, tab, newline, carriage return, vertical tab,
form feed. -/
def pyIsSpace (c : Char) : Bool :=
  c = ' ' || c = '\t' || c = '\n' || c = '\r' || c = Char.ofNat 11 || c = Char.ofNat 12

/-- Python `str.strip()` with no arguments: remove leading and trailing
whitespace. -/
def pyStrip (s : String) : String :=
  ⟨((s.data.dropWhile pyIsSpace).reverse.dropWhile pyIsSpace).reverse⟩

/-- Python `str.rstrip()` with no arguments: remove trailing whitespace. -/
def pyRstrip (s : String) : String :=
  ⟨(s.data.reverse.dropWhile pyIsSpace).reverse⟩

/-- Python `str.rstrip('\n')`: remove trailing newline characters. -/
def pyRstripNl (s : String) : String :=
  ⟨(s.data.reverse.dropWhile (fun c => c = '\n')).reverse⟩

/-- Python `str.upper()` (ASCII letters). -/
def pyUpper (s : String) : String :=
  ⟨s.data.map Char.toUpper⟩

/-- Python `str.lower()` (ASCII letters). -/
def pyLower (s : String) : String :=
  ⟨s.data.map Char.toLower⟩

/-- Whether `p` is a prefix of `s` (list version). -/
def listStartsWith (p s : List Char) : Bool :=
  match p, s with
  | [], _ => true
  | _ :: _, [] => false
  | a :: p', b :: s' => a = b && listStartsWith p' s'

/-- Python `s.startswith(p)`. -/
def strStartsWith (s p : String) : Bool :=
  listStartsWith p.data s.data

/-- Whether `p` is a suffix of `s` (Python `s.endswith(p)`). -/
def strEndsWith (s p : String) : Bool :=
  listStartsWith p.data.reverse s.data.reverse

/-- Does `pat` occur as a contiguous sublist of `s`? -/
def listContains (pat : List Char) : List Char → Bool
  | [] => pat.isEmpty
  | c :: rest => listStartsWith pat (c :: rest) || listContains pat rest

/-- Python `pat in s` (substring containment). -/
def strContains (s pat : String) : Bool :=
  listContains pat.data s.data

/-- Helper for Python `str.split()` with no arguments: accumulate the current
word (reversed) and split at whitespace runs, producing no empty words. -/
def pyWordsAux (acc : List Char) : List Char → List String
  | [] => if acc.isEmpty then [] else [⟨acc.reverse⟩]
  | c :: rest =>
    if pyIsSpace c then
      if acc.isEmpty then pyWordsAux [] rest else ⟨acc.reverse⟩ :: pyWordsAux [] rest
  else pyWordsAux (c :: acc) rest

/-- Python `str.split()` with no arguments. -/
def pySplit (s : String) : List String :=
  pyWordsAux [] s.data

/-- Helper for Python `str.splitlines()`: split at `\r\n`, `\r` and `\n`;
a trailing unterminated segment is produced only if non-empty. -/
def pySplitLinesAux (acc : List Char) : List Char → List (List Char)
  | [] => if acc.isEmpty then [] else [acc.reverse]
  | '\r' :: '\n' :: rest => acc.reverse :: pySplitLinesAux [] rest
  | '\r' :: rest => acc.reverse :: pySplitLinesAux [] rest
  | '\n' :: rest => acc.reverse :: pySplitLinesAux [] rest
  | c :: rest => pySplitLinesAux (c :: acc) rest

/-- Python `str.splitlines()` (restricted to the line breaks `\n`, `\r`,
`\r\n`; the exotic unicode breaks do not occur in the analysed content). -/
def pySplitLines (s : String) : List String :=
  (pySplitLinesAux [] s.data).map (fun l => ⟨l⟩)

/-- Python `"\n".join(lines)`. -/
def joinNl : List String → String
  | [] => ""
  | [x] => x
  | x :: xs => x ++ "\n" ++ joinNl xs

/-- A regex word character `\w` (ASCII): letters, digits, underscore. -/
def isWordChar (c : Char) : Bool :=
  c.isAlphanum || c = '_'

/-! ## `fnmatch.fnmatch` (POSIX: case-sensitive glob matching)

`_package_version_ok` in `src/main.py` tests version pins with
`fnmatch.fnmatch(ver, pattern)`.  On POSIX `os.path.normcase` is the identity,
so this is plain glob matching: `*` matches any sequence, `?` any single
character, `[...]`/`[!...]` a (negated) character class with ranges; an
unterminated `[` is a literal. -/

/-- Scan for the `]` closing an fnmatch character class; return the class body
and the remainder after the `]`. -/
def findClassClose : List Char → Option (List Char × List Char)
  | [] => none
  | c :: rest =>
    if c = ']' then some ([], rest)
    else
      match findClassClose rest with
      | some (b, r) => some (c :: b, r)
      | none => none

theorem findClassClose_len : ∀ l b r, findClassClose l = some (b, r) → r.length < l.length := by
  intro l
  induction l with
  | nil => intro b r h; simp [findClassClose] at h
  | cons c rest ih =>
    intro b r h
    simp only [findClassClose] at h
    by_cases hc : c = ']'
    · rw [if_pos hc] at h
      cases h
      simp only [List.length_cons]
      omega
    · rw [if_neg hc] at h
      cases hfc : findClassClose rest with
      | none => rw [hfc] at h; simp at h
      | some p =>
        obtain ⟨b', r'⟩ := p
        have hlen := ih b' r' hfc
        rw [hfc] at h
        cases h
        simp only [List.length_cons]
        omega

/-- Tail of fnmatch class parsing: after the optional `!`, a leading `]` is a
literal member of the class; then scan for the closing `]`. -/
def globClassTail (neg : Bool) : List Char → Option (Bool × List Char × List Char)
  | [] => none
  | d :: t' =>
    if d = ']' then (findClassClose t').map (fun p => (neg, ']' :: p.1, p.2))
    else (findClassClose (d :: t')).map (fun p => (neg, p.1, p.2))

theorem globClassTail_len (neg : Bool) (l : List Char) (n : Bool) (b r : List Char)
    (h : globClassTail neg l = some (n, b, r)) : r.length < l.length := by
  match l with
  | [] => simp [globClassTail] at h
  | d :: t' =>
    simp only [globClassTail] at h
    by_cases hd : d = ']'
    · rw [if_pos hd] at h
      cases hfc : findClassClose t' with
      | none => rw [hfc] at h; simp at h
      | some p =>
        obtain ⟨b', r'⟩ := p
        have hlen := findClassClose_len _ _ _ hfc
        rw [hfc] at h
        cases h
        simp only [List.length_cons]
        omega
    · rw [if_neg hd] at h
      cases hfc : findClassClose (d :: t') with
      | none => rw [hfc] at h; simp at h
      | some p =>
        obtain ⟨b', r'⟩ := p
        have hlen := findClassClose_len _ _ _ hfc
        rw [hfc] at h
        cases h
        simpa using hlen

/-- Parse an fnmatch character class after the opening `[`: an optional `!`
(negation), then a body in which a leading `]` is literal, up to the closing
`]`.  Returns `(negated, body, remainder)`, or `none` if the class is
unterminated (in which case `[` is treated as a literal). -/
def globParseClass (ps : List Char) : Option (Bool × List Char × List Char) :=
  match ps with
  | [] => none
  | c :: t => if c = '!' then globClassTail true t else globClassTail false (c :: t)

theorem globParseClass_len (ps : List Char) (n : Bool) (b r : List Char)
    (h : globParseClass ps = some (n, b, r)) : r.length < ps.length := by
  match ps with
  | [] => simp [globParseClass] at h
  | c :: t =>
    simp only [globParseClass] at h
    by_cases hc : c = '!'
    · rw [if_pos hc] at h
      have := globClassTail_len _ _ _ _ _ h
      simp only [List.length_cons]
      omega
    · rw [if_neg hc] at h
      exact globClassTail_len _ _ _ _ _ h

/-- Membership of a character in an fnmatch class body (with `a-b` ranges; a
trailing `-` is a literal). -/
def classMemb (c : Char) : List Char → Bool
  | a :: '-' :: b :: rest => (a ≤ c && c ≤ b) || classMemb c rest
  | a :: rest => (a = c) || classMemb c rest
  | [] => false

/-- Glob matching, fuel-indexed so that the recursion is structural and the
kernel can evaluate it.  Every recursive step strictly shrinks
`s.length + p.length` (for the class step by `globParseClass_len`), so any
fuel exceeding that sum computes the full backtracking glob relation. -/
def globGo : Nat → List Char → List Char → Bool
  | 0, _, _ => false
  | _ + 1, s, [] => s.isEmpty
  | fuel + 1, s, p :: ps =>
    if p = '*' then
      globGo fuel s ps ||
        (match s with
         | [] => false
         | _ :: s' => globGo fuel s' (p :: ps))
    else if p = '?' then
      (match s with
       | [] => false
       | _ :: s' => globGo fuel s' ps)
    else if p = '[' then
      (match globParseClass ps with
       | some q =>
         (match s with
          | [] => false
          | c :: s' => (q.1 != classMemb c q.2.1) && globGo fuel s' q.2.2)
       | none =>
         (match s with
          | [] => false
          | c :: s' => (c = '[') && globGo fuel s' ps))
    else
      (match s with
       | [] => false
       | c :: s' => (c = p) && globGo fuel s' ps)

/-- Glob matching of a name against an fnmatch pattern, both as char lists,
with its canonical sufficient fuel. -/
def globMatch (s p : List Char) : Bool :=
  globGo (s.length + p.length + 1) s p

/-- Model of `fnmatch.fnmatch(name, pattern)` on POSIX. -/
def fnmatchB (name pat : String) : Bool :=
  globMatch name.data pat.data

/-- The wildcard test of `src/main.py` lines 973 and 987:
`"*" in pattern or "?" in pattern or "[" in pattern`. -/
def hasWildcard (p : String) : Bool :=
  strContains p "*" || strContains p "?" || strContains p "["

/-! ## Package catalog and `_package_version_ok` (src/main.py, lines 954–994)

The YAML package catalog maps a distro-family name to either a plain list of
package names, or a mapping from package name to a per-package value that is
itself either a list of literal version strings, a dict whose `"versions"` key
holds a list of version patterns, or some other (malformed) value. -/

/-- The enum `VersionMatch` of `src/main.py` lines 47–52. -/
inductive VersionMatch where
  | NO_MATCH
  | EXACT_STRING_MATCH
  | WILDCARD_PATTERN_MATCH
  deriving DecidableEq, Repr

/-- The value stored for a single package inside a structured distro map:
`vlist` is a direct list of allowed exact versions, `vdict vs` is a dict whose
`"versions"` key holds `vs` (an absent key yields `[]`, as does the empty
dict `\x7b\x7d`, which the source short-circuits through its falsiness check with
the same NO_MATCH result), and `other` is any other (malformed) value. -/
inductive PkgVal where
  | vlist : List String → PkgVal
  | vdict : List String → PkgVal
  | other : PkgVal

/-- The value stored for a distro in the package catalog: either a plain list
of package names (`isinstance(info, list)`), or a mapping from package names
to `PkgVal` (`dict`). -/
inductive DistroInfo where
  | plist : List String → DistroInfo
  | pmap : List (String × PkgVal) → DistroInfo

/-- Association-list lookup (Python `dict.get(key)` returning `None` when
absent). -/
def alistGet (m : List (String × PkgVal)) (k : String) : Option PkgVal :=
  match m.find? (fun p => p.1 = k) with
  | some p => some p.2
  | none => none

/-- Model of `self.package_catalog.get(distro, default)`: look the distro up, defaulting to
an empty dict. -/
def catalogGet (catalog : List (String × DistroInfo)) (distro : String) : DistroInfo :=
  match catalog.find? (fun p => p.1 = distro) with
  | some p => p.2
  | none => DistroInfo.pmap []

/-- The `for pattern in versions_patterns` loop of `_package_version_ok`
(src/main.py lines 984–991): the first `fnmatch`-matching pattern returns
WILDCARD_PATTERN_MATCH if it contains a wildcard metacharacter, or
EXACT_STRING_MATCH if it equals the version; otherwise the loop continues,
falling through to NO_MATCH. -/
def versionsLoop (ver : String) : List String → VersionMatch
  | [] => VersionMatch.NO_MATCH
  | pat :: rest =>
    if fnmatchB ver pat then
      if hasWildcard pat then VersionMatch.WILDCARD_PATTERN_MATCH
      else if ver = pat then VersionMatch.EXACT_STRING_MATCH
      else versionsLoop ver rest
    else versionsLoop ver rest

/-- Model of `DockerfileOptimizer._package_version_ok` (src/main.py lines 954–994).

The source first fetches `info = self.package_catalog.get(distro, \x7b\x7d)`; a
list-shaped `info` is NO_MATCH unconditionally.  Otherwise
`pkg_specific_config = info.get(pkg, \x7b\x7d)`; a falsy config (absent package,
empty list, empty dict) is NO_MATCH; a list config checks membership of the
version; a dict config runs the versions-pattern loop (an empty or missing
`"versions"` list is NO_MATCH); any other shape falls through to NO_MATCH. -/
def _package_version_ok (catalog : List (String × DistroInfo)) (distro pkg ver : String) :
    VersionMatch :=
  match catalogGet catalog distro with
  | DistroInfo.plist _ => VersionMatch.NO_MATCH
  | DistroInfo.pmap m =>
    match alistGet m pkg with
    | none => VersionMatch.NO_MATCH
    | some (PkgVal.vlist vs) =>
      if vs.isEmpty then VersionMatch.NO_MATCH
      else if ver ∈ vs then
        if vs.any (fun s => s = ver && hasWildcard s) then VersionMatch.WILDCARD_PATTERN_MATCH
        else VersionMatch.EXACT_STRING_MATCH
      else VersionMatch.NO_MATCH
    | some (PkgVal.vdict versions) =>
      if versions.isEmpty then VersionMatch.NO_MATCH
      else versionsLoop ver versions
    | some PkgVal.other => VersionMatch.NO_MATCH

/-! ## `_detect_distro` (src/main.py, lines 942–952)

The source iterates over `content.splitlines()`; for each line whose stripped
text starts with `"FROM"` (case-sensitively) it evaluates
`line.split()[1].lower()` — an expression that raises `IndexError` when the
line has fewer than two whitespace-separated tokens — and tests the image for
the substrings alpine, ubuntu, debian in that order; if none occurs it keeps
scanning subsequent lines, and returns `"debian"` only after the loop.  The
possible `IndexError` is modelled by an `Option` result. -/

/-- The line loop of `_detect_distro`. -/
def detectGo : List String → Option String
  | [] => some "debian"
  | l :: rest =>
    if strStartsWith (pyStrip l) "FROM" then
      match (pySplit l).get? 1 with
      | none => none
      | some t =>
        let img := pyLower t
        if strContains img "alpine" then some "alpine"
        else if strContains img "ubuntu" then some "ubuntu"
        else if strContains img "debian" then some "debian"
        else detectGo rest
    else detectGo rest

/-- Model of `DockerfileOptimizer._detect_distro` (src/main.py lines 942–952); `none`
models the uncaught `IndexError` of `line.split()[1]`. -/
def _detect_distro (content : String) : Option String :=
  detectGo (pySplitLines content)

/-! ## The pin regex and rewriter of `_post_process_optimized_content`

`version_pin_regex = ([\w\.\-]+(?:\\[[\w\.\-]+\\])?)=([\d:\.\+\~\-\w]+)`.
Both character classes exclude `=` and `\`, so the regex engine needs no
backtracking here: at a given start position a match exists iff the maximal
run of name-class characters is non-empty, is optionally followed by the
literal-bracket group `\<body>\]`, then a literal `=`, then a non-empty
maximal run of version-class characters.  `findall` scans left to right,
advancing one character after a failed position and past the whole match
after a successful one. -/

/-- The first capture class `[\w\.\-]`. -/
def nameClassChar (c : Char) : Bool :=
  isWordChar c || c = '.' || c = '-'

/-- The second capture class `[\d:\.\+\~\-\w]`. -/
def verClassChar (c : Char) : Bool :=
  c.isDigit || c = ':' || c = '.' || c = '+' || c = '~' || c = '-' || isWordChar c

/-- The class `[[\w\.\-]` inside the optional group `(?:\\[[\w\.\-]+\\])?`
(a literal `[` or a name-class character). -/
def bracketClassChar (c : Char) : Bool :=
  isWordChar c || c = '.' || c = '-' || c = '['

theorem dropWhile_length_le (p : Char → Bool) (l : List Char) :
    (l.dropWhile p).length ≤ l.length := by
  induction l with
  | nil => simp
  | cons c rest ih =>
    by_cases hc : p c
    · simp [List.dropWhile, hc]
      omega
    · simp [List.dropWhile, hc]

/-- Match the optional group `(?:\\[[\w\.\-]+\\])?` at the head of `cs`,
returning the consumed text and the remainder (`([], cs)` when the group is
absent): a literal `\`, a non-empty greedy run of bracket-class characters,
then the literal two characters `\` `]`. -/
def pinGroupMatch (cs : List Char) : List Char × List Char :=
  match cs with
  | [] => ([], [])
  | c :: rest =>
    let body := rest.takeWhile bracketClassChar
    let after := rest.dropWhile bracketClassChar
    if c = '\\' && !body.isEmpty && listStartsWith ['\\', ']'] after then
      ('\\' :: (body ++ ['\\', ']']), after.drop 2)
    else ([], c :: rest)

theorem pinGroupMatch_len (cs : List Char) :
    (pinGroupMatch cs).2.length ≤ cs.length := by
  match cs with
  | [] => simp [pinGroupMatch]
  | c :: rest =>
    simp only [pinGroupMatch]
    split_ifs with hcond
    · have h1 := dropWhile_length_le bracketClassChar rest
      simp only [List.length_drop, List.length_cons]
      omega
    · simp

/-- Attempt a `version_pin_regex` match anchored at the head of `cs`; on
success return the `(package, version)` capture pair and the remainder after
the match.  Both classes exclude `=` and `\`, so shortening a greedy run can
never create a match — the greedy, backtracking-free reading is exact. -/
def pinMatchAt (cs : List Char) : Option ((String × String) × List Char) :=
  let name := cs.takeWhile nameClassChar
  if name.isEmpty then none
  else
    let gr := pinGroupMatch (cs.dropWhile nameClassChar)
    if listStartsWith ['='] gr.2 then
      let rest3 := gr.2.drop 1
      let ver := rest3.takeWhile verClassChar
      if ver.isEmpty then none
      else some ((⟨name ++ gr.1⟩, ⟨ver⟩), rest3.dropWhile verClassChar)
    else none

theorem pinMatchAt_len (cs : List Char) (pr : (String × String) × List Char)
    (h : pinMatchAt cs = some pr) : pr.2.length < cs.length := by
  unfold pinMatchAt at h
  simp only at h
  split_ifs at h with hn he hv
  all_goals try exact Option.noConfusion h
  case _ =>
    cases h
    have h1 : (cs.dropWhile nameClassChar).length < cs.length := by
      have hsplit := congrArg List.length (List.takeWhile_append_dropWhile (p := nameClassChar) (l := cs))
      simp only [List.length_append] at hsplit
      have : (cs.takeWhile nameClassChar).length ≠ 0 := by
        simpa [List.isEmpty_iff_length_eq_zero] using hn
      omega
    have h2 := pinGroupMatch_len (cs.dropWhile nameClassChar)
    have h3 := dropWhile_length_le verClassChar
      ((pinGroupMatch (cs.dropWhile nameClassChar)).2.drop 1)
    have h4 : 0 < (pinGroupMatch (cs.dropWhile nameClassChar)).2.length := by
      cases hg : (pinGroupMatch (cs.dropWhile nameClassChar)).2 with
      | nil => rw [hg] at he; simp [listStartsWith] at he
      | cons a t => simp [hg]
    simp only [List.length_drop] at h3 ⊢
    omega

/-- Model of `version_pin_regex.findall(l)`: scan left to right; a failed position
advances one character, a successful match is consumed whole
(non-overlapping).  Fuel-indexed (structural, kernel-evaluable); by
`pinMatchAt_len` every step consumes at least one character, so fuel equal to
the list length computes the full scan. -/
def findPinsGo : Nat → List Char → List (String × String)
  | 0, _ => []
  | _ + 1, [] => []
  | fuel + 1, cs =>
    match pinMatchAt cs with
    | some pr => pr.1 :: findPinsGo fuel pr.2
    | none => findPinsGo fuel cs.tail

/-- All `name=version` pins found in a line (src/main.py line 366). -/
def findPins (l : String) : List (String × String) :=
  findPinsGo l.data.length l.data

/-- Word-character status of the head of a list (`false` at the end of the
string), used for `\b` boundaries. -/
def wordAt : List Char → Bool
  | [] => false
  | c :: _ => isWordChar c

/-- Scanner for the boundary-guarded literal substitution of src/main.py lines 381-388
(src/main.py lines 381–388): replace every non-overlapping occurrence of the
literal text `p0 :: prest` that has a `\b` word boundary on both sides with
`rep`.  `lastW` is the word-character status of the last pattern character;
`prevW` that of the character just before the current position (`false` at the
start of the line). -/
def subGo (p0 : Char) (prest rep : List Char) (lastW : Bool) :
    Nat → Bool → List Char → List Char
  | 0, _, _ => []
  | _ + 1, _, [] => []
  | fuel + 1, prevW, c :: t =>
    if (prevW != isWordChar p0) && (c = p0) && listStartsWith prest t
        && (lastW != wordAt (t.drop prest.length)) then
      rep ++ subGo p0 prest rep lastW fuel lastW (t.drop prest.length)
    else c :: subGo p0 prest rep lastW fuel (isWordChar c) t

/-- Model of the pin-stripping substitution of src/main.py lines 381-388: strip the
version pin, leaving the bare package name. -/
def subPin (pkg ver line : String) : String :=
  match pkg.data with
  | [] => line
  | p0 :: prest0 =>
    let pat := prest0 ++ '=' :: ver.data
    ⟨subGo p0 pat pkg.data (wordAt (p0 :: pat).reverse) line.data.length false line.data⟩

/-! ## `apt_install_regex` (src/main.py line 344)

`apt-get\s+(?:.*\s+)?install\b` with `re.IGNORECASE`, applied with `search`
to the newline-joined block text.  `.` does not match `\n`; `\s` does. -/

/-- Case-insensitive prefix match against a lowercase pattern. -/
def listStartsWithCI (p s : List Char) : Bool :=
  match p, s with
  | [], _ => true
  | _ :: _, [] => false
  | a :: p', b :: s' => Char.toLower b = a && listStartsWithCI p' s'

/-- Match of `install` plus a word boundary at the current position. -/
def installHere (cs : List Char) : Bool :=
  listStartsWithCI ("install".data) cs && !(wordAt (cs.drop 7))

/-- Match of whitespace-plus then the install word at the current position. -/
def wsPlusInstall : List Char → Bool
  | [] => false
  | c :: rest => pyIsSpace c && (installHere rest || wsPlusInstall rest)

/-- Match of dot-star, whitespace-plus, then the install word at the current position (the dot not matching a newline). -/
def dotStarWsInstall : List Char → Bool
  | [] => false
  | cs@(c :: rest) => wsPlusInstall cs || (decide (c ≠ '\n') && dotStarWsInstall rest)

/-- After `apt-get` and at least one `\s` character: the remaining pattern
`\s*(?:.*\s+)?install\b` (the leading `\s*` being the rest of the `\s+`). -/
def afterWsPlus : List Char → Bool
  | [] => false
  | cs@(c :: rest) => installHere cs || dotStarWsInstall cs || (pyIsSpace c && afterWsPlus rest)

/-- One anchored attempt of `apt-get\s+(?:.*\s+)?install\b`. -/
def aptInstallAt (cs : List Char) : Bool :=
  listStartsWithCI ("apt-get".data) cs &&
    (match cs.drop 7 with
     | [] => false
     | c :: r2 => pyIsSpace c && afterWsPlus r2)

/-- Model of `apt_install_regex.search`: try every start position. -/
def aptSearchGo : List Char → Bool
  | [] => false
  | cs@(_ :: rest) => aptInstallAt cs || aptSearchGo rest

/-- Model of `apt_install_regex.search(block_text)` (src/main.py line 361). -/
def aptInstallSearch (s : String) : Bool :=
  aptSearchGo s.data

/-! ## Block walking and rewriting of `_post_process_optimized_content`
(src/main.py lines 333–424) -/

/-- The continuation-line gathering loop (src/main.py lines 352–358): starting
from the current line, keep appending following lines while the last gathered
line, right-stripped, ends in a backslash.  Returns the block and the
remaining lines. -/
def gatherBlock (first : String) : List String → List String × List String
  | [] => ([first], [])
  | next :: rest' =>
    if strEndsWith (pyRstrip first) "\\" then
      let br := gatherBlock next rest'
      (first :: br.1, br.2)
    else ([first], next :: rest')

theorem gatherBlock_rem_le (first : String) (rest : List String) :
    (gatherBlock first rest).2.length ≤ rest.length := by
  induction rest generalizing first with
  | nil => simp [gatherBlock]
  | cons next rest' ih =>
    simp only [gatherBlock]
    split_ifs
    · simpa using Nat.le_succ_of_le (ih next)
    · simp

theorem gatherBlock_append (first : String) (rest : List String) :
    (gatherBlock first rest).1 ++ (gatherBlock first rest).2 = first :: rest := by
  induction rest generalizing first with
  | nil => simp [gatherBlock]
  | cons next rest' ih =>
    simp only [gatherBlock]
    split_ifs
    · simpa using ih next
    · simp

/-- One pin of the per-line rewrite loop (src/main.py lines 371–389): an
EXACT_STRING_MATCH keeps the line; WILDCARD_PATTERN_MATCH and NO_MATCH strip
the pin with `re.sub` and flag the line as modified. -/
def pinStep (catalog : List (String × DistroInfo)) (distro : String)
    (acc : String × Bool) (pv : String × String) : String × Bool :=
  match _package_version_ok catalog distro pv.1 pv.2 with
  | VersionMatch.EXACT_STRING_MATCH => acc
  | VersionMatch.WILDCARD_PATTERN_MATCH => (subPin pv.1 pv.2 acc.1, true)
  | VersionMatch.NO_MATCH => (subPin pv.1 pv.2 acc.1, true)

/-- Per-line pin processing (src/main.py lines 364–395): find all pins of the
original line, then fold the rewrite over them; the flag records whether any
pin was modified in this line. -/
def processPinsLine (catalog : List (String × DistroInfo)) (distro l : String) : String × Bool :=
  (findPins l).foldl (pinStep catalog distro) (l, false)

/-- The trailing comment marker appended to a modified block. -/
def ppMarker : String := "Pins modified by post-processor for compatibility"

/-- Index of the first occurrence of `pat` (meaningful only when `pat`
occurs), modelling Python `str.find`. -/
def listFindPos (pat : List Char) : List Char → Nat
  | [] => 0
  | cs@(_ :: t) => if listStartsWith pat cs then 0 else listFindPos pat t + 1

/-- The comment-merging logic of src/main.py lines 402–410, applied to the
last physical line of a modified block. -/
def commentLine (last : String) : String :=
  if strContains last " # " then
    let idx := listFindPos " # ".data last.data
    let mainPart := pyRstrip ⟨last.data.take idx⟩
    let existing : String := ⟨last.data.drop (idx + 3)⟩
    if strContains existing "Pins modified by post-processor" then last
    else mainPart ++ " # " ++ existing ++ "; " ++ ppMarker
  else if strContains last ("# " ++ ppMarker) then last
  else pyRstrip last ++ " # " ++ ppMarker

/-- Append (or merge) the modification marker onto the last line of a block. -/
def appendCommentLast (ls : List String) : List String :=
  match ls.getLast? with
  | none => ls
  | some last => ls.dropLast ++ [commentLine last]

/-- Process one qualifying (apt-get-install) block (src/main.py lines
362–411): rewrite each line, and if any line was modified, the marker comment
is merged into the last line. -/
def processBlock (catalog : List (String × DistroInfo)) (distro : String)
    (blk : List String) : List String × Bool :=
  let results := blk.map (processPinsLine catalog distro)
  let cleaned := results.map Prod.fst
  if results.any Prod.snd then (appendCommentLast cleaned, true) else (cleaned, false)

/-- The main `while i < len(lines)` walk of `_post_process_optimized_content`
(src/main.py lines 349–418): a line whose stripped text starts with `"RUN "`
opens a continuation block; blocks whose text matches the apt-install
signature are pin-processed, all other lines pass through.  The boolean is
the accumulated `overall_modified`. -/
def ppGo (catalog : List (String × DistroInfo)) (distro : String) :
    Nat → List String → List String × Bool
  | 0, _ => ([], false)
  | _ + 1, [] => ([], false)
  | fuel + 1, l :: rest =>
    if strStartsWith (pyStrip l) "RUN " then
      let br := gatherBlock l rest
      let tm := ppGo catalog distro fuel br.2
      if aptInstallSearch (joinNl br.1) then
        let cb := processBlock catalog distro br.1
        (cb.1 ++ tm.1, cb.2 || tm.2)
      else (br.1 ++ tm.1, tm.2)
    else
      let tm := ppGo catalog distro fuel rest
      (l :: tm.1, tm.2)

/-- The walk with its canonical (sufficient, by `gatherBlock_rem_le`) fuel. -/
def ppAux (catalog : List (String × DistroInfo)) (distro : String)
    (ls : List String) : List String × Bool :=
  ppGo catalog distro ls.length ls

/-- Model of `DockerfileOptimizer._post_process_optimized_content` (src/main.py lines
333–424), paired with the `overall_modified` flag (the `modified` output of
the spec, §6).  `none` models the uncaught `IndexError` that
`self._detect_distro(optimized_content)` (line 341) can raise. -/
def _post_process_optimized_content (catalog : List (String × DistroInfo))
    (content : String) : Option (String × Bool) :=
  match _detect_distro content with
  | none => none
  | some distro =>
    let r := ppAux catalog distro (pySplitLines content)
    some (joinNl r.1, r.2)

/-! ## The Dockerfile linter (src/dockerfile_linter.py)

`lint_file` reads the file as a list of lines. We embed it as a function of
the rule catalog and the line list; a rule's compiled `regex_pattern` is
abstracted as its `search` capability `String → Bool` (the only way the
source uses it). -/

/-- The enum `Severity` of src/dockerfile_linter.py lines 18–23. -/
inductive Severity where
  | CRITICAL
  | HIGH
  | MEDIUM
  | LOW

/-- The dataclass `LinterRule` (src/dockerfile_linter.py lines 25–33). -/
structure LinterRule where
  id : String
  title : String
  description : String
  severity : Severity
  regex_pattern : String → Bool
  suggestion : String

/-- The dataclass `LinterIssue` (src/dockerfile_linter.py lines 35–40). -/
structure LinterIssue where
  line_number : Nat
  rule : LinterRule
  line_content : String

/-- The rule titles looked up by name inside `lint_file`. -/
def combineTitle : String := "Combine RUN commands to reduce layers"

def workdirTitle : String := "Use WORKDIR instead of RUN cd"

def userTitle : String := "Use USER Instruction and specify a non root user"

def msTitle : String := "Use multi-stage builds"

/-- A single quote character (used in source message strings). -/
def quoteChar : String := ⟨[Char.ofNat 39]⟩

/-- Whether `line.strip()` is empty or a comment — skipped by the scan
(src/dockerfile_linter.py line 104). -/
def skipLine (l : String) : Bool :=
  (pyStrip l).isEmpty || strStartsWith (pyStrip l) "#"

/-- The test of src/dockerfile_linter.py line 108: the stripped line, uppercased, starts with RUN. -/
def isRunStart (s : String) : Bool :=
  strStartsWith (pyUpper s) "RUN"

/-- A token of the shape `[\w\-]+(:[\w\.\-]+)?` (image reference with optional
tag). -/
def imgToken (s : String) : Bool :=
  let a := s.data.takeWhile (fun c => isWordChar c || c = '-')
  let r := s.data.drop a.length
  !a.isEmpty &&
    (r.isEmpty ||
      (match r with
       | ':' :: rest => !rest.isEmpty && rest.all (fun c => isWordChar c || c = '.' || c = '-')
       | _ => false))

/-- A non-empty all-word-character token (`\w+`). -/
def allWord (s : String) : Bool :=
  !s.isEmpty && s.data.all isWordChar

/-- Model of the named-stage pre-check regex applied with re.match to a
stripped line (src/dockerfile_linter.py line 95): exactly the
four whitespace-separated tokens `FROM <image>[:tag] AS <name>` (case
insensitively). -/
def isNamedStageLine (s : String) : Bool :=
  match pySplit s with
  | [w1, w2, w3, w4] =>
    pyUpper w1 = "FROM" && imgToken w2 && pyUpper w3 = "AS" && allWord w4
  | _ => false

/-- Executable model of the repository rule pattern
`(?i)^\s*FROM\s+[\w\-]+(:[\w\.\-]+)?(\s+AS\s+\w+)?$` (src/rules.py,
`multi_stage_builds`), as applied by `search` to a stripped line: either
`FROM <image>[:tag]` or `FROM <image>[:tag] AS <name>`. -/
def multiStagePattern (s : String) : Bool :=
  match pySplit s with
  | [w1, w2] => pyUpper w1 = "FROM" && imgToken w2
  | [w1, w2, w3, w4] =>
    pyUpper w1 = "FROM" && imgToken w2 && pyUpper w3 = "AS" && allWord w4
  | _ => false

/-- The per-scan mutable state of `lint_file`: the issue accumulator, the
`matched_lines` (line, rule id) pairs, `has_user_instruction`, and the
`multiple_run_commands` buffer. -/
structure ScanState where
  issues : List LinterIssue
  matched : List (Nat × String)
  hasUser : Bool
  runBuf : List (Nat × String)

/-- The issue appended when a consecutive-RUN buffer is flushed
(src/dockerfile_linter.py lines 120–124 and 204–208). -/
def flushIssue (c : LinterRule) (a : Nat) : LinterIssue :=
  ⟨a, c, "Multiple RUN commands found starting at line " ++ toString a⟩

/-- The consecutive-RUN tracking of src/dockerfile_linter.py lines 107–126:
a RUN line is buffered; any other instruction flushes a buffer holding more
than one entry into a single "combine" issue anchored at the buffer head,
then clears the buffer. -/
def runTrackStep (rules : List LinterRule) (st : ScanState) (n : Nat) (s : String) : ScanState :=
  if isRunStart s then { st with runBuf := st.runBuf ++ [(n, s)] }
  else
    let st1 :=
      if 1 < st.runBuf.length then
        match rules.find? (fun r => r.title = combineTitle) with
        | some c => { st with issues := st.issues ++ [flushIssue c (st.runBuf.headD (0, "")).1] }
        | none => st
      else st
    { st1 with runBuf := [] }

/-- The special `RUN cd` handling of src/dockerfile_linter.py lines 136–150:
fires the WORKDIR rule once per line, respecting `matched_lines`. -/
def workdirStep (rules : List LinterRule) (st : ScanState) (n : Nat) (s orig : String) :
    ScanState :=
  if strContains s "cd" && isRunStart s then
    match rules.find? (fun r => r.title = workdirTitle) with
    | some w =>
      if (n, w.id) ∈ st.matched then st
      else { st with issues := st.issues ++ [⟨n, w, pyRstripNl orig⟩],
                     matched := st.matched ++ [(n, w.id)] }
    | none => st
  else st

/-- The generic rule loop of src/dockerfile_linter.py lines 152–167: skip the
multi-stage rule when a named stage exists, skip (line, rule) pairs already
matched, otherwise search the stripped line and record a hit. -/
def ruleStep (hasNS : Bool) (n : Nat) (s orig : String) (st : ScanState) (r : LinterRule) :
    ScanState :=
  if r.title = msTitle && hasNS then st
  else if (n, r.id) ∈ st.matched then st
  else if r.regex_pattern s then
    { st with issues := st.issues ++ [⟨n, r, pyRstripNl orig⟩],
              matched := st.matched ++ [(n, r.id)] }
  else st

/-- Processing of one enumerated line in the first pass of `lint_file`
(src/dockerfile_linter.py lines 100–167). -/
def processLine (rules : List LinterRule) (hasNS : Bool) (st : ScanState) (n : Nat)
    (orig : String) : ScanState :=
  let s := pyStrip orig
  if skipLine orig then st
  else
    let st1 := runTrackStep rules st n s
    let st2 := if strStartsWith (pyUpper s) "USER" then { st1 with hasUser := true } else st1
    let st3 := workdirStep rules st2 n s orig
    rules.foldl (ruleStep hasNS n s orig) st3

/-- The whole first pass, with 1-based line numbers. -/
def lintScan (rules : List LinterRule) (hasNS : Bool) (lines : List String) : ScanState :=
  (List.enumFrom 1 lines).foldl (fun st p => processLine rules hasNS st p.1 p.2)
    ⟨[], [], false, []⟩

/-- The first-FROM-line search of src/dockerfile_linter.py lines 184–189
(1-based; 1 when no FROM line exists). -/
def firstFromLine (lines : List String) : Nat :=
  match (List.enumFrom 1 lines).find?
      (fun p => strStartsWith (pyUpper (pyStrip p.2)) "FROM") with
  | some p => p.1
  | none => 1

/-- The missing-USER global check (src/dockerfile_linter.py lines 170–178):
fires when no USER instruction was seen, anchored at `max(len(lines) - 1, 0)`
(truncated natural subtraction gives exactly this). -/
def userCheck (rules : List LinterRule) (lines : List String) (st : ScanState)
    (issues : List LinterIssue) : List LinterIssue :=
  if !st.hasUser then
    match rules.find? (fun r => r.title = userTitle) with
    | some u => issues ++ [⟨lines.length - 1, u, "No USER instruction found in Dockerfile"⟩]
    | none => issues
  else issues

/-- The message of the synthesized multi-stage issue. -/
def msMsg : String :=
  "No named stage (e.g., " ++ quoteChar ++ "AS builder" ++ quoteChar ++
    ") found. Multi-stage build recommended."

/-- The missing-named-stage global check (src/dockerfile_linter.py lines
180–194), anchored at the first FROM line (or 1). -/
def msCheck (rules : List LinterRule) (lines : List String) (hNS : Bool)
    (issues : List LinterIssue) : List LinterIssue :=
  if !hNS then
    match rules.find? (fun r => r.title = msTitle) with
    | some m => issues ++ [⟨firstFromLine lines, m, msMsg⟩]
    | none => issues
  else issues

/-- The end-of-file flush of the consecutive-RUN buffer
(src/dockerfile_linter.py lines 196–208). -/
def eofFlush (rules : List LinterRule) (st : ScanState)
    (issues : List LinterIssue) : List LinterIssue :=
  if 1 < st.runBuf.length then
    match rules.find? (fun r => r.title = combineTitle) with
    | some c => issues ++ [flushIssue c (st.runBuf.headD (0, "")).1]
    | none => issues
  else issues

/-- Model of `DockerfileLinter.lint_file` (src/dockerfile_linter.py lines 78–217) as a
function of the rule catalog and the file lines: the named-stage pre-check,
the per-line pass, then the three global checks in source order (missing
USER, missing named stage, end-of-file RUN-buffer flush). -/
def lint_file (rules : List LinterRule) (lines : List String) : List LinterIssue :=
  let hNS := lines.any (fun l => isNamedStageLine (pyStrip l))
  let st := lintScan rules hNS lines
  eofFlush rules st (msCheck rules lines hNS (userCheck rules lines st st.issues))

/-- The (line number, rule id) key of an issue. -/
def issueKey (i : LinterIssue) : Nat × String :=
  (i.line_number, i.rule.id)

/-! ## Anchors of consecutive-RUN runs

A specification-side characterisation of which "combine" issues a scan
produces: the first line numbers of the maximal groups of at least two
consecutive RUN lines (consecutive among the non-skipped lines, since
comments and blank lines are skipped before the tracking), including the
group still buffered at end of file. -/

/-- Fold the non-skipped enumerated lines, tracking the current open run as
`some (anchor, count)`; emits the anchors of runs of length at least 2 that
are closed by a non-RUN line, and returns the final open run. -/
def runAnchorsMid : List (Nat × String) → Option (Nat × Nat) → List Nat × Option (Nat × Nat)
  | [], cur => ([], cur)
  | (n, s) :: rest, cur =>
    if isRunStart (pyStrip s) then
      runAnchorsMid rest
        (match cur with
         | none => some (n, 1)
         | some (a, k) => some (a, k + 1))
    else
      let res := runAnchorsMid rest none
      ((match cur with
        | some (a, k) => if 2 ≤ k then [a] else []
        | none => []) ++ res.1, res.2)

/-- The anchors contributed by the final buffer flush. -/
def flushAnchors : Option (Nat × Nat) → List Nat
  | some (a, k) => if 2 ≤ k then [a] else []
  | none => []

/-- All anchors at which a scan of `lines` emits a "combine consecutive RUN
commands" issue (mid-scan closures plus the end-of-file flush). -/
def runAnchors (lines : List String) : List Nat :=
  let mid := runAnchorsMid ((List.enumFrom 1 lines).filter (fun p => !skipLine p.2)) none
  mid.1 ++ flushAnchors mid.2

/-! ## The whole-file (multi-line) pass — modelled from the spec

The spec (§4.4 MultiLineMatcher) describes a second pass which runs rules
marked as whole-file over the concatenation of all lines with
`finditer`-style global search.  In `src/dockerfile_linter.py` only vestiges
of this pass remain: the unused `full_content` at line 90 and the comment at
lines 210–211; the pass itself is not part of the source tree. -/

/-- Modelled from the spec: a rule record for the whole-file pass, carrying
the tag distinguishing whole-file rules (spec §4.4 and §9 "a tag on the
record") and its `finditer`-style global search capability, abstracted as the
list of match start offsets in the text. -/
structure WholeFileRule where
  id : String
  title : String
  wholeFile : Bool
  matchStarts : String → List Nat

/-- An issue emitted by the modelled whole-file pass, reduced to its
(line number, rule id) content. -/
structure MLIssue where
  line_number : Nat
  rule_id : String
  deriving DecidableEq, Repr

/-- Modelled from the spec: the 1-based line number of a match starting at
character offset `pos` — one plus the number of newline characters preceding
the match start (spec §4.4). -/
def lineOfPos (content : String) (pos : Nat) : Nat :=
  1 + ((content.data.take pos).filter (fun c => c = '\n')).length

/-- Modelled from the spec: the match loop of the whole-file pass; each match
yields an issue at its starting line unless an issue for that
(line, rule id) pair was already recorded by an earlier path or by an earlier
match of this loop. -/
def mlGo (recorded : List (Nat × String)) (rid : String) (content : String)
    (acc : List MLIssue) : List Nat → List MLIssue
  | [] => acc
  | s :: rest =>
    let ln := lineOfPos content s
    if (ln, rid) ∈ recorded || acc.any (fun i => i.line_number = ln && i.rule_id = rid) then
      mlGo recorded rid content acc rest
    else mlGo recorded rid content (acc ++ [⟨ln, rid⟩]) rest

/-- Modelled from the spec: the whole-file pass for one rule marked as
operating over the whole file (spec §4.4), given the (line, rule id) pairs
already recorded by the line-level paths. -/
def multiLinePass (recorded : List (Nat × String)) (r : WholeFileRule) (content : String) :
    List MLIssue :=
  if r.wholeFile then mlGo recorded r.id content [] (r.matchStarts content) else []

/-! ## Theorems about the pin validator -/

theorem listContains_singleton (a : Char) (l : List Char) :
    listContains [a] l = l.any (fun c => c = a) := by
  induction l with
  | nil => simp [listContains]
  | cons c rest ih =>
    simp only [listContains, listStartsWith, List.any_cons, ih]
    cases hb : (decide (a = c)) <;> cases hb2 : (decide (c = a)) <;>
      simp_all [eq_comm]

theorem hasWildcard_false (p : String) (h : hasWildcard p = false) :
    ∀ c ∈ p.data, c ≠ '*' ∧ c ≠ '?' ∧ c ≠ '[' := by
  intro c hc
  unfold hasWildcard strContains at h
  simp only [Bool.or_eq_false_iff] at h
  obtain ⟨⟨h1, h2⟩, h3⟩ := h
  rw [listContains_singleton] at h1 h2 h3
  simp only [List.any_eq_false, decide_eq_true_eq] at h1 h2 h3
  exact ⟨h1 c hc, h2 c hc, h3 c hc⟩

/-- A pattern without wildcard metacharacters glob-matches exactly itself
(fuel-indexed form). -/
theorem globGo_noWild (p : List Char) (hp : ∀ c ∈ p, c ≠ '*' ∧ c ≠ '?' ∧ c ≠ '[') :
    ∀ (fuel : Nat) (s : List Char), s.length + p.length < fuel →
      (globGo fuel s p = true ↔ s = p) := by
  induction p with
  | nil =>
    intro fuel s hf
    match fuel, hf with
    | fuel + 1, _ => simp [globGo, List.isEmpty_iff]
  | cons q ps ih =>
    intro fuel s hf
    have hq := hp q (by simp)
    have hp' : ∀ c ∈ ps, c ≠ '*' ∧ c ≠ '?' ∧ c ≠ '[' :=
      fun c hc => hp c (List.mem_cons_of_mem q hc)
    match fuel, hf with
    | fuel + 1, hf =>
      cases s with
      | nil => simp [globGo, hq.1, hq.2.1, hq.2.2]
      | cons c s' =>
        have hlt : s'.length + ps.length < fuel := by
          simp only [List.length_cons] at hf
          omega
        simp [globGo, hq.1, hq.2.1, hq.2.2, ih hp' fuel s' hlt, and_comm]

/-- A pattern without wildcard metacharacters glob-matches exactly itself. -/
theorem globMatch_noWild (p : List Char) (hp : ∀ c ∈ p, c ≠ '*' ∧ c ≠ '?' ∧ c ≠ '[') :
    ∀ s, globMatch s p = true ↔ s = p :=
  fun s => globGo_noWild p hp (s.length + p.length + 1) s (by omega)

/-- First-match-wins characterisation of the versions-pattern loop: since a
pattern without wildcard metacharacters fnmatch-matches only itself, the first
fnmatch-matching pattern always returns. -/
theorem versionsLoop_first_match (ver : String) (versions : List String) :
    versionsLoop ver versions =
      (match versions.find? (fun p => fnmatchB ver p) with
       | some p =>
         if hasWildcard p then VersionMatch.WILDCARD_PATTERN_MATCH
         else VersionMatch.EXACT_STRING_MATCH
       | none => VersionMatch.NO_MATCH) := by
  induction versions with
  | nil => simp [versionsLoop]
  | cons p rest ih =>
    simp only [versionsLoop, List.find?]
    cases hm : fnmatchB ver p with
    | false => simp [hm, ih]
    | true =>
      simp only [hm]
      cases hw : hasWildcard p with
      | true => simp
      | false =>
        have hvp : ver = p := by
          have hd := (globMatch_noWild p.data (hasWildcard_false p hw) ver.data).mp hm
          cases ver; cases p; exact congrArg String.mk hd
        simp [hvp]

/-- Example catalog: curl restricted to the wildcard pattern family `7.1.*`
for debian. -/
def curlCatalogWild : List (String × DistroInfo) :=
  [("debian", DistroInfo.pmap [("curl", PkgVal.vdict ["7.1.*"])])]

/-- Example catalog: curl restricted to the exact version string `7.1.0` for
debian. -/
def curlCatalogExact : List (String × DistroInfo) :=
  [("debian", DistroInfo.pmap [("curl", PkgVal.vdict ["7.1.0"])])]

/-- Example catalog in which the package `foo` is absent from the (structured)
debian entry. -/
def fooAbsentCatalog : List (String × DistroInfo) :=
  [("debian", DistroInfo.pmap [])]

/-- C6: for every pin `name=version` whose package maps, in the detected
distro entry, to a structured spec with an ordered list of version patterns,
classification iterates the patterns in order and the first glob-matching
pattern wins — WILDCARD_PATTERN_MATCH if that pattern contains a wildcard
metacharacter (`*`, `?`, `[`), else EXACT_STRING_MATCH — and NO_MATCH when no
pattern matches.  In particular, `curl=7.1.0` against `["7.1.*"]` classifies
WILDCARD_PATTERN_MATCH and the post-processor rewrites it to bare `curl`,
while against `["7.1.0"]` it classifies EXACT_STRING_MATCH and the line is
left untouched. -/
theorem c6_structured_pattern_classification :
    (∀ (catalog : List (String × DistroInfo)) (distro pkg ver : String)
        (m : List (String × PkgVal)) (versions : List String),
        catalogGet catalog distro = DistroInfo.pmap m →
        alistGet m pkg = some (PkgVal.vdict versions) →
        versions.isEmpty = false →
        _package_version_ok catalog distro pkg ver =
          (match versions.find? (fun p => fnmatchB ver p) with
           | some p =>
             if hasWildcard p then VersionMatch.WILDCARD_PATTERN_MATCH
             else VersionMatch.EXACT_STRING_MATCH
           | none => VersionMatch.NO_MATCH))
    ∧ _package_version_ok curlCatalogWild "debian" "curl" "7.1.0"
        = VersionMatch.WILDCARD_PATTERN_MATCH
    ∧ _package_version_ok curlCatalogExact "debian" "curl" "7.1.0"
        = VersionMatch.EXACT_STRING_MATCH
    ∧ _post_process_optimized_content curlCatalogWild "RUN apt-get install curl=7.1.0"
        = some ("RUN apt-get install curl # Pins modified by post-processor for compatibility",
            true)
    ∧ _post_process_optimized_content curlCatalogExact "RUN apt-get install curl=7.1.0"
        = some ("RUN apt-get install curl=7.1.0", false) := by
  refine ⟨?_, by decide, by decide, by decide, by decide⟩
  intro catalog distro pkg ver m versions hcat halist hne
  simp only [_package_version_ok, hcat, halist, hne, Bool.false_eq_true, if_false]
  exact versionsLoop_first_match ver versions

/-- C6 witness: the general conjunct instantiated at the wildcard example
catalog. -/
theorem c6_structured_pattern_classification_witness :
    _package_version_ok curlCatalogWild "debian" "curl" "7.1.0" =
      (match (["7.1.*"] : List String).find? (fun p => fnmatchB "7.1.0" p) with
       | some p =>
         if hasWildcard p then VersionMatch.WILDCARD_PATTERN_MATCH
         else VersionMatch.EXACT_STRING_MATCH
       | none => VersionMatch.NO_MATCH) :=
  c6_structured_pattern_classification.1 curlCatalogWild "debian" "curl" "7.1.0"
    [("curl", PkgVal.vdict ["7.1.*"])] ["7.1.*"] rfl rfl rfl

/-- C7: classification returns NO_MATCH whenever the catalog carries no
usable version information — a flat name-list distro entry (unconditionally),
a package absent from a structured distro map, or a malformed package entry —
and every non-EXACT match (hence every NO_MATCH) makes the rewrite loop strip
the `=version` suffix via `re.sub`; e.g. `foo=1.0` with `foo` absent is
rewritten to bare `foo`. -/
theorem c7_no_match_fail_safe :
    (∀ (catalog : List (String × DistroInfo)) (distro pkg ver : String) (ns : List String),
        catalogGet catalog distro = DistroInfo.plist ns →
        _package_version_ok catalog distro pkg ver = VersionMatch.NO_MATCH)
    ∧ (∀ (catalog : List (String × DistroInfo)) (distro pkg ver : String)
          (m : List (String × PkgVal)),
        catalogGet catalog distro = DistroInfo.pmap m →
        alistGet m pkg = none →
        _package_version_ok catalog distro pkg ver = VersionMatch.NO_MATCH)
    ∧ (∀ (catalog : List (String × DistroInfo)) (distro pkg ver : String)
          (m : List (String × PkgVal)),
        catalogGet catalog distro = DistroInfo.pmap m →
        alistGet m pkg = some PkgVal.other →
        _package_version_ok catalog distro pkg ver = VersionMatch.NO_MATCH)
    ∧ (∀ (catalog : List (String × DistroInfo)) (distro : String) (acc : String × Bool)
          (pv : String × String),
        _package_version_ok catalog distro pv.1 pv.2 = VersionMatch.NO_MATCH →
        pinStep catalog distro acc pv = (subPin pv.1 pv.2 acc.1, true))
    ∧ _post_process_optimized_content fooAbsentCatalog "RUN apt-get install foo=1.0"
        = some ("RUN apt-get install foo # Pins modified by post-processor for compatibility",
            true) := by
  refine ⟨?_, ?_, ?_, ?_, by decide⟩
  · intro catalog distro pkg ver ns hcat
    simp [_package_version_ok, hcat]
  · intro catalog distro pkg ver m hcat halist
    simp [_package_version_ok, hcat, halist]
  · intro catalog distro pkg ver m hcat halist
    simp [_package_version_ok, hcat, halist]
  · intro catalog distro acc pv h
    simp [pinStep, h]

/-- C7 witness: the flat-list, absent-package and malformed conjuncts and the
rewrite conjunct instantiated at concrete catalogs. -/
theorem c7_no_match_fail_safe_witness :
    _package_version_ok [("alpine", DistroInfo.plist ["curl"])] "alpine" "curl" "1.0"
        = VersionMatch.NO_MATCH
    ∧ _package_version_ok fooAbsentCatalog "debian" "foo" "1.0" = VersionMatch.NO_MATCH
    ∧ _package_version_ok [("debian", DistroInfo.pmap [("foo", PkgVal.other)])]
        "debian" "foo" "1.0" = VersionMatch.NO_MATCH
    ∧ pinStep fooAbsentCatalog "debian" ("RUN apt-get install foo=1.0", false) ("foo", "1.0")
        = (subPin "foo" "1.0" "RUN apt-get install foo=1.0", true) :=
  ⟨c7_no_match_fail_safe.1 _ "alpine" "curl" "1.0" ["curl"] rfl,
   c7_no_match_fail_safe.2.1 _ "debian" "foo" "1.0" [] rfl rfl,
   c7_no_match_fail_safe.2.2.1 _ "debian" "foo" "1.0" [("foo", PkgVal.other)] rfl rfl,
   c7_no_match_fail_safe.2.2.2.1 _ "debian" _ ("foo", "1.0") (by decide)⟩

/-! ## Distro detection: C9 and C10 -/

/-- Keyword classification of one image reference, in the source priority
order alpine, ubuntu, debian (case-insensitive substring). -/
def classifyImg (img : String) : Option String :=
  if strContains img "alpine" then some "alpine"
  else if strContains img "ubuntu" then some "ubuntu"
  else if strContains img "debian" then some "debian"
  else none

/-- The amended specification of distro detection: scan all lines in order;
the first FROM-prefixed line whose second token contains a keyword
(alpine before ubuntu before debian, case-insensitively) determines the
family; only when no FROM line matches any keyword does the scan default to
debian. -/
def detectSpecGo : List String → String
  | [] => "debian"
  | l :: rest =>
    if strStartsWith (pyStrip l) "FROM" then
      match classifyImg (pyLower (((pySplit l).get? 1).getD "")) with
      | some d => d
      | none => detectSpecGo rest
    else detectSpecGo rest

/-- The amended distro detection over whole content. -/
def detectDistroSpec (content : String) : String :=
  detectSpecGo (pySplitLines content)

/-- Refinement: `detectGo` computes `detectSpecGo` when every FROM-prefixed line has at
least two whitespace-separated tokens. -/
theorem detectGo_refines : ∀ ls : List String,
    (∀ l ∈ ls, strStartsWith (pyStrip l) "FROM" = true → 2 ≤ (pySplit l).length) →
    detectGo ls = some (detectSpecGo ls) := by
  intro ls
  induction ls with
  | nil => intro _; rfl
  | cons l rest ih =>
    intro h
    have hrest := fun x hx => h x (List.mem_cons_of_mem l hx)
    simp only [detectGo, detectSpecGo]
    by_cases hf : strStartsWith (pyStrip l) "FROM"
    · rw [if_pos hf, if_pos hf]
      have hlen := h l (List.mem_cons_self l rest) hf
      cases hg : (pySplit l).get? 1 with
      | none =>
        exfalso
        have := List.get?_eq_none.mp hg
        omega
      | some t =>
        simp only [hg, Option.getD_some]
        unfold classifyImg
        by_cases h1 : strContains (pyLower t) "alpine"
        · simp [h1]
        · by_cases h2 : strContains (pyLower t) "ubuntu"
          · simp [h1, h2]
          · by_cases h3 : strContains (pyLower t) "debian"
            · simp [h1, h2, h3]
            · simp [h1, h2, h3, ih hrest]
    · rw [if_neg hf, if_neg hf]
      exact ih hrest

/-- Lemma: `classifyImg` only produces the three family names. -/
theorem classifyImg_mem (img : String) (d : String) (h : classifyImg img = some d) :
    d = "alpine" ∨ d = "ubuntu" ∨ d = "debian" := by
  unfold classifyImg at h
  split_ifs at h <;> cases h <;> simp

/-- The amended detection only produces the three family names. -/
theorem detectSpecGo_mem : ∀ ls : List String,
    detectSpecGo ls = "alpine" ∨ detectSpecGo ls = "ubuntu" ∨ detectSpecGo ls = "debian" := by
  intro ls
  induction ls with
  | nil => right; right; rfl
  | cons l rest ih =>
    simp only [detectSpecGo]
    split_ifs with hf
    · cases hc : classifyImg (pyLower (((pySplit l).get? 1).getD "")) with
      | none => exact ih
      | some d => simpa using classifyImg_mem _ d hc
    · exact ih

/-- C9 counterexample: the claim says a first FROM line matching no keyword
yields the default "debian", but the source keeps scanning and classifies
the SECOND FROM line here as alpine. -/
theorem c9_counterexample :
    _detect_distro "FROM scratch\nFROM alpine" = some "alpine" ∧
      ¬ _detect_distro "FROM scratch\nFROM alpine" = some "debian" := by
  constructor <;> decide

/-- C9 (amended): under the precondition that every FROM-prefixed line has at
least two tokens, detection classifies by the FIRST FROM line whose image
contains a keyword (alpine, then ubuntu, then debian, case-insensitively,
per line), defaulting to "debian" only when no FROM line matches any
keyword. -/
theorem c9_detect_first_matching_from (content : String)
    (h : ∀ l ∈ pySplitLines content,
        strStartsWith (pyStrip l) "FROM" = true → 2 ≤ (pySplit l).length) :
    _detect_distro content = some (detectDistroSpec content) :=
  detectGo_refines (pySplitLines content) h

/-- C9 witness: the amended theorem applied at a concrete single-FROM file. -/
theorem c9_detect_first_matching_from_witness :
    _detect_distro "FROM ubuntu:20.04\nRUN ls" =
      some (detectDistroSpec "FROM ubuntu:20.04\nRUN ls") :=
  c9_detect_first_matching_from "FROM ubuntu:20.04\nRUN ls" (by decide)

/-- C10: distro detection is total exactly under the precondition that every
FROM-prefixed line carries at least two whitespace-separated tokens — then it
returns one of alpine/ubuntu/debian — while the bare line "FROM" makes the
`line.split()[1]` token access fail (modelled `none`), and the failure
propagates to the pin validator that calls it. -/
theorem c10_detect_totality :
    (∀ content : String,
        (∀ l ∈ pySplitLines content,
            strStartsWith (pyStrip l) "FROM" = true → 2 ≤ (pySplit l).length) →
        _detect_distro content = some "alpine" ∨ _detect_distro content = some "ubuntu" ∨
          _detect_distro content = some "debian")
    ∧ _detect_distro "FROM" = none
    ∧ _post_process_optimized_content [] "FROM" = none := by
  refine ⟨?_, by decide, by decide⟩
  intro content h
  rw [show _detect_distro content = detectGo (pySplitLines content) from rfl,
    detectGo_refines (pySplitLines content) h]
  rcases detectSpecGo_mem (pySplitLines content) with hd | hd | hd <;> rw [hd] <;> simp

/-- C10 witness: the totality conjunct applied at a concrete well-formed
file. -/
theorem c10_detect_totality_witness :
    _detect_distro "FROM node:18\nUSER app" = some "alpine" ∨
      _detect_distro "FROM node:18\nUSER app" = some "ubuntu" ∨
        _detect_distro "FROM node:18\nUSER app" = some "debian" :=
  c10_detect_totality.1 "FROM node:18\nUSER app" (by decide)

/-! ## C8: round-trip of pin-free content -/

/-- The hypothesis of the round-trip property: walking the lines exactly like
`ppGo`, every qualifying (apt-install) block consists of lines in which the
pin regex finds nothing. -/
def noPinsGo : Nat → List String → Bool
  | 0, _ => true
  | _ + 1, [] => true
  | fuel + 1, l :: rest =>
    if strStartsWith (pyStrip l) "RUN " then
      let br := gatherBlock l rest
      (!aptInstallSearch (joinNl br.1) || br.1.all (fun x => (findPins x).isEmpty))
        && noPinsGo fuel br.2
    else noPinsGo fuel rest

/-- No pins inside package-manager install blocks of the given lines. -/
def noPinsBlocks (ls : List String) : Bool :=
  noPinsGo ls.length ls

theorem processPinsLine_no_pins (catalog : List (String × DistroInfo)) (distro l : String)
    (h : (findPins l).isEmpty = true) : processPinsLine catalog distro l = (l, false) := by
  unfold processPinsLine
  rw [List.isEmpty_iff.mp h]
  rfl

theorem processBlock_no_pins (catalog : List (String × DistroInfo)) (distro : String)
    (blk : List String) (h : blk.all (fun x => (findPins x).isEmpty) = true) :
    processBlock catalog distro blk = (blk, false) := by
  unfold processBlock
  have hmap : blk.map (processPinsLine catalog distro) = blk.map (fun x => (x, false)) := by
    apply List.map_congr_left
    intro x hx
    exact processPinsLine_no_pins _ _ x (by simpa using List.all_eq_true.mp h x hx)
  rw [hmap]
  simp only [List.map_map, List.any_map]
  rw [show (Prod.fst ∘ fun x : String => (x, false)) = id from funext fun _ => rfl,
    List.map_id]
  have hany : (List.map (fun x : String => (x, false)) blk).any Prod.snd = false := by
    induction blk with
    | nil => rfl
    | cons b bs ih => simpa using ih
  rw [hany]
  simp

/-- A pin-free walk copies every line and reports no modification. -/
theorem ppGo_no_pins (catalog : List (String × DistroInfo)) (distro : String) :
    ∀ (fuel : Nat) (ls : List String), ls.length ≤ fuel →
      noPinsGo fuel ls = true → ppGo catalog distro fuel ls = (ls, false) := by
  intro fuel
  induction fuel with
  | zero =>
    intro ls hlen _
    have h0 : ls = [] := List.length_eq_zero.mp (Nat.le_zero.mp hlen)
    subst h0
    rfl
  | succ fuel ih =>
    intro ls hlen hnp
    cases ls with
    | nil => rfl
    | cons l rest =>
      simp only [ppGo, noPinsGo] at hnp ⊢
      by_cases hrun : strStartsWith (pyStrip l) "RUN "
      · rw [if_pos hrun] at hnp ⊢
        simp only [Bool.and_eq_true] at hnp
        obtain ⟨hguard, hrest⟩ := hnp
        have hlen2 : (gatherBlock l rest).2.length ≤ fuel := by
          have := gatherBlock_rem_le l rest
          simp only [List.length_cons] at hlen
          omega
        have htail := ih (gatherBlock l rest).2 hlen2 hrest
        by_cases hapt : aptInstallSearch (joinNl (gatherBlock l rest).1)
        · rw [if_pos hapt]
          have hall : (gatherBlock l rest).1.all (fun x => (findPins x).isEmpty) = true := by
            simpa [hapt] using hguard
          rw [processBlock_no_pins _ _ _ hall, htail]
          simp [gatherBlock_append]
        · rw [if_neg hapt, htail]
          simp [gatherBlock_append]
      · rw [if_neg hrun] at hnp ⊢
        have hlen3 : rest.length ≤ fuel := by
          simp only [List.length_cons] at hlen
          omega
        rw [ih rest hlen3 hnp]

/-- C8 counterexample: pin-free content ending in a newline is NOT returned
byte-identical — the source splits into lines and rejoins with `"\n"`,
dropping the trailing newline. -/
theorem c8_counterexample :
    _post_process_optimized_content [] "RUN ls\n" = some ("RUN ls", false)
      ∧ ("RUN ls" : String) ≠ "RUN ls\n" := by
  constructor <;> decide

/-- C8 (amended): when distro detection succeeds and no pins occur inside
package-manager install blocks, the validator returns `modified = false` and
the newline-rejoin of the split input lines — byte-identical to the input
exactly when the input uses `\n` separators and no trailing newline. -/
theorem c8_no_pin_roundtrip (catalog : List (String × DistroInfo)) (content distro : String)
    (hd : _detect_distro content = some distro)
    (hnp : noPinsBlocks (pySplitLines content) = true) :
    _post_process_optimized_content catalog content
      = some (joinNl (pySplitLines content), false) := by
  unfold _post_process_optimized_content
  rw [hd]
  have hpp := ppGo_no_pins catalog distro (pySplitLines content).length (pySplitLines content)
    le_rfl hnp
  simp only [ppAux, hpp]

/-- C8 witness: the amended round-trip at a concrete pin-free file whose
shape makes the rejoin byte-identical. -/
theorem c8_no_pin_roundtrip_witness :
    _post_process_optimized_content [] "FROM debian\nRUN apt-get install curl"
      = some (joinNl (pySplitLines "FROM debian\nRUN apt-get install curl"), false) :=
  c8_no_pin_roundtrip [] "FROM debian\nRUN apt-get install curl" "debian" (by decide) (by decide)

/-! ## Linter scan lemmas -/

theorem ruleStep_hasUser (hNS : Bool) (n : Nat) (s orig : String) (st : ScanState)
    (r : LinterRule) : (ruleStep hNS n s orig st r).hasUser = st.hasUser := by
  unfold ruleStep
  split_ifs <;> rfl

theorem ruleStep_runBuf (hNS : Bool) (n : Nat) (s orig : String) (st : ScanState)
    (r : LinterRule) : (ruleStep hNS n s orig st r).runBuf = st.runBuf := by
  unfold ruleStep
  split_ifs <;> rfl

theorem foldl_ruleStep_hasUser (hNS : Bool) (n : Nat) (s orig : String) :
    ∀ (rules : List LinterRule) (st : ScanState),
      (rules.foldl (ruleStep hNS n s orig) st).hasUser = st.hasUser := by
  intro rules
  induction rules with
  | nil => intro st; rfl
  | cons r rs ih =>
    intro st
    rw [List.foldl_cons, ih, ruleStep_hasUser]

theorem foldl_ruleStep_runBuf (hNS : Bool) (n : Nat) (s orig : String) :
    ∀ (rules : List LinterRule) (st : ScanState),
      (rules.foldl (ruleStep hNS n s orig) st).runBuf = st.runBuf := by
  intro rules
  induction rules with
  | nil => intro st; rfl
  | cons r rs ih =>
    intro st
    rw [List.foldl_cons, ih, ruleStep_runBuf]

theorem workdirStep_hasUser (rules : List LinterRule) (st : ScanState) (n : Nat)
    (s orig : String) : (workdirStep rules st n s orig).hasUser = st.hasUser := by
  unfold workdirStep
  split
  · split
    · split_ifs <;> rfl
    · rfl
  · rfl

theorem workdirStep_runBuf (rules : List LinterRule) (st : ScanState) (n : Nat)
    (s orig : String) : (workdirStep rules st n s orig).runBuf = st.runBuf := by
  unfold workdirStep
  split
  · split
    · split_ifs <;> rfl
    · rfl
  · rfl

theorem runTrackStep_hasUser (rules : List LinterRule) (st : ScanState) (n : Nat) (s : String) :
    (runTrackStep rules st n s).hasUser = st.hasUser := by
  unfold runTrackStep
  split_ifs
  · rfl
  · split <;> rfl
  · rfl

theorem runTrackStep_runBuf (rules : List LinterRule) (st : ScanState) (n : Nat) (s : String) :
    (runTrackStep rules st n s).runBuf
      = if isRunStart s then st.runBuf ++ [(n, s)] else [] := by
  unfold runTrackStep
  split_ifs
  · rfl
  · split <;> rfl
  · rfl

theorem userFlag_issues (b : Bool) (st : ScanState) :
    ((if b then { st with hasUser := true } else st) : ScanState).issues = st.issues := by
  split_ifs <;> rfl

theorem userFlag_runBuf (b : Bool) (st : ScanState) :
    ((if b then { st with hasUser := true } else st) : ScanState).runBuf = st.runBuf := by
  split_ifs <;> rfl

theorem processLine_hasUser_noUser (rules : List LinterRule) (hNS : Bool) (st : ScanState)
    (n : Nat) (orig : String)
    (h : strStartsWith (pyUpper (pyStrip orig)) "USER" = false) :
    (processLine rules hNS st n orig).hasUser = st.hasUser := by
  unfold processLine
  split_ifs with hskip
  · rfl
  · rw [foldl_ruleStep_hasUser, workdirStep_hasUser]
    rw [show ((if strStartsWith (pyUpper (pyStrip orig)) "USER" = true then
        { runTrackStep rules st n (pyStrip orig) with hasUser := true }
      else runTrackStep rules st n (pyStrip orig)) : ScanState)
        = runTrackStep rules st n (pyStrip orig) from by rw [if_neg (by simp [h])]]
    exact runTrackStep_hasUser rules st n (pyStrip orig)

theorem processLine_runBuf (rules : List LinterRule) (hNS : Bool) (st : ScanState) (n : Nat)
    (orig : String) :
    (processLine rules hNS st n orig).runBuf
      = if skipLine orig then st.runBuf
        else if isRunStart (pyStrip orig) then st.runBuf ++ [(n, pyStrip orig)] else [] := by
  unfold processLine
  split_ifs with hskip hrun
  · rfl
  · rw [foldl_ruleStep_runBuf, workdirStep_runBuf, userFlag_runBuf, runTrackStep_runBuf,
      if_pos hrun]
  · rw [foldl_ruleStep_runBuf, workdirStep_runBuf, userFlag_runBuf, runTrackStep_runBuf,
      if_neg hrun]

theorem filter_append_single (t : String) (xs : List LinterIssue) (i : LinterIssue)
    (h : ¬ i.rule.title = t) :
    (xs ++ [i]).filter (fun j => j.rule.title = t) = xs.filter (fun j => j.rule.title = t) := by
  simp [List.filter_append, List.filter, h]

theorem filter_append_single_pos (t : String) (xs : List LinterIssue) (i : LinterIssue)
    (h : i.rule.title = t) :
    (xs ++ [i]).filter (fun j => j.rule.title = t)
      = xs.filter (fun j => j.rule.title = t) ++ [i] := by
  simp [List.filter_append, List.filter, h]

theorem ruleStep_filter (t : String) (hNS : Bool) (n : Nat) (s orig : String) (st : ScanState)
    (r : LinterRule)
    (hr : r.title = t → (decide (r.title = msTitle) && hNS) = false → r.regex_pattern s = false) :
    ((ruleStep hNS n s orig st r).issues).filter (fun j => j.rule.title = t)
      = st.issues.filter (fun j => j.rule.title = t) := by
  unfold ruleStep
  split_ifs with h1 h2 h3
  · rfl
  · rfl
  · apply filter_append_single
    intro ht
    have hg : (decide (r.title = msTitle) && hNS) = false := by
      revert h1
      cases decide (r.title = msTitle) && hNS <;> simp
    rw [hr ht hg] at h3
    exact Bool.noConfusion h3
  · rfl

theorem foldl_ruleStep_filter (t : String) (hNS : Bool) (n : Nat) (s orig : String) :
    ∀ (rules : List LinterRule) (st : ScanState),
      (∀ r ∈ rules, r.title = t → (decide (r.title = msTitle) && hNS) = false →
          r.regex_pattern s = false) →
      ((rules.foldl (ruleStep hNS n s orig) st).issues).filter (fun j => j.rule.title = t)
        = st.issues.filter (fun j => j.rule.title = t) := by
  intro rules
  induction rules with
  | nil => intro st _; rfl
  | cons r rs ih =>
    intro st h
    rw [List.foldl_cons,
      ih _ (fun x hx => h x (List.mem_cons_of_mem r hx)),
      ruleStep_filter t hNS n s orig st r (h r (List.mem_cons_self r rs))]

theorem workdirStep_filter (t : String) (rules : List LinterRule) (st : ScanState) (n : Nat)
    (s orig : String) (ht : ¬ workdirTitle = t) :
    ((workdirStep rules st n s orig).issues).filter (fun j => j.rule.title = t)
      = st.issues.filter (fun j => j.rule.title = t) := by
  unfold workdirStep
  split
  · split
    · rename_i w hf
      have hw : w.title = workdirTitle := by simpa using List.find?_some hf
      split_ifs
      · rfl
      · exact filter_append_single t _ _ (by rw [hw]; exact ht)
    · rfl
  · rfl

theorem runTrackStep_filter (t : String) (rules : List LinterRule) (st : ScanState) (n : Nat)
    (s : String) (ht : ¬ combineTitle = t) :
    ((runTrackStep rules st n s).issues).filter (fun j => j.rule.title = t)
      = st.issues.filter (fun j => j.rule.title = t) := by
  unfold runTrackStep
  split_ifs
  · rfl
  · split
    · rename_i c hf
      have hctitle : c.title = combineTitle := by simpa using List.find?_some hf
      exact filter_append_single t _ _ (by simp only [flushIssue]; rw [hctitle]; exact ht)
    · rfl
  · rfl

theorem processLine_filter (t : String) (rules : List LinterRule) (hNS : Bool) (st : ScanState)
    (n : Nat) (orig : String)
    (hC : ¬ combineTitle = t) (hW : ¬ workdirTitle = t)
    (hR : ∀ r ∈ rules, r.title = t → (decide (r.title = msTitle) && hNS) = false →
        r.regex_pattern (pyStrip orig) = false) :
    ((processLine rules hNS st n orig).issues).filter (fun j => j.rule.title = t)
      = st.issues.filter (fun j => j.rule.title = t) := by
  unfold processLine
  split_ifs with hskip
  · rfl
  · rw [foldl_ruleStep_filter t hNS n (pyStrip orig) orig rules _ hR,
      workdirStep_filter t rules _ n (pyStrip orig) orig hW]
    have hui := userFlag_issues (strStartsWith (pyUpper (pyStrip orig)) "USER")
      (runTrackStep rules st n (pyStrip orig))
    rw [show ((if strStartsWith (pyUpper (pyStrip orig)) "USER" = true then
        { runTrackStep rules st n (pyStrip orig) with hasUser := true }
      else runTrackStep rules st n (pyStrip orig)) : ScanState).issues
        = (runTrackStep rules st n (pyStrip orig)).issues from hui]
    exact runTrackStep_filter t rules st n (pyStrip orig) hC

theorem scanFold_hasUser (rules : List LinterRule) (hNS : Bool) :
    ∀ (lines : List String) (k : Nat) (st : ScanState),
      (∀ l ∈ lines, strStartsWith (pyUpper (pyStrip l)) "USER" = false) →
      (((List.enumFrom k lines).foldl (fun st p => processLine rules hNS st p.1 p.2)
        st)).hasUser = st.hasUser := by
  intro lines
  induction lines with
  | nil => intro k st _; rfl
  | cons l rest ih =>
    intro k st h
    simp only [List.enumFrom, List.foldl_cons]
    rw [ih (k + 1) _ (fun x hx => h x (List.mem_cons_of_mem l hx)),
      processLine_hasUser_noUser rules hNS st k l (h l (List.mem_cons_self l rest))]

theorem scanFold_filter (t : String) (rules : List LinterRule) (hNS : Bool)
    (hC : ¬ combineTitle = t) (hW : ¬ workdirTitle = t) :
    ∀ (lines : List String) (k : Nat) (st : ScanState),
      (∀ l ∈ lines, ∀ r ∈ rules, r.title = t →
          (decide (r.title = msTitle) && hNS) = false → r.regex_pattern (pyStrip l) = false) →
      ((((List.enumFrom k lines).foldl (fun st p => processLine rules hNS st p.1 p.2)
          st)).issues).filter (fun j => j.rule.title = t)
        = st.issues.filter (fun j => j.rule.title = t) := by
  intro lines
  induction lines with
  | nil => intro k st _; rfl
  | cons l rest ih =>
    intro k st h
    simp only [List.enumFrom, List.foldl_cons]
    rw [ih (k + 1) _ (fun x hx => h x (List.mem_cons_of_mem l hx)),
      processLine_filter t rules hNS st k l hC hW (h l (List.mem_cons_self l rest))]


/-! ## Filter behaviour of the global checks -/

theorem userCheck_filter_ne (t : String) (rules : List LinterRule) (lines : List String)
    (st : ScanState) (issues : List LinterIssue) (ht : ¬ userTitle = t) :
    (userCheck rules lines st issues).filter (fun j => j.rule.title = t)
      = issues.filter (fun j => j.rule.title = t) := by
  unfold userCheck
  split_ifs
  · split
    · rename_i u hu
      have hut : u.title = userTitle := by simpa using List.find?_some hu
      exact filter_append_single t _ _ (by rw [hut]; exact ht)
    · rfl
  · rfl

theorem userCheck_eq_append (rules : List LinterRule) (lines : List String) (st : ScanState)
    (issues : List LinterIssue) (u : LinterRule)
    (hu : rules.find? (fun r => r.title = userTitle) = some u)
    (hnou : st.hasUser = false) :
    userCheck rules lines st issues
      = issues ++ [⟨lines.length - 1, u, "No USER instruction found in Dockerfile"⟩] := by
  unfold userCheck
  rw [hnou, hu]
  rfl

theorem msCheck_filter_ne (t : String) (rules : List LinterRule) (lines : List String)
    (hNS : Bool) (issues : List LinterIssue) (ht : ¬ msTitle = t) :
    (msCheck rules lines hNS issues).filter (fun j => j.rule.title = t)
      = issues.filter (fun j => j.rule.title = t) := by
  unfold msCheck
  split_ifs
  · split
    · rename_i m hm
      have hmt : m.title = msTitle := by simpa using List.find?_some hm
      exact filter_append_single t _ _ (by rw [hmt]; exact ht)
    · rfl
  · rfl

theorem msCheck_eq_append (rules : List LinterRule) (lines : List String)
    (issues : List LinterIssue) (m : LinterRule)
    (hm : rules.find? (fun r => r.title = msTitle) = some m) :
    msCheck rules lines false issues = issues ++ [⟨firstFromLine lines, m, msMsg⟩] := by
  unfold msCheck
  rw [hm]
  rfl

theorem msCheck_skip (rules : List LinterRule) (lines : List String)
    (issues : List LinterIssue) : msCheck rules lines true issues = issues := rfl

theorem eofFlush_filter_ne (t : String) (rules : List LinterRule) (st : ScanState)
    (issues : List LinterIssue) (ht : ¬ combineTitle = t) :
    (eofFlush rules st issues).filter (fun j => j.rule.title = t)
      = issues.filter (fun j => j.rule.title = t) := by
  unfold eofFlush
  split_ifs
  · split
    · rename_i c hc
      have hct : c.title = combineTitle := by simpa using List.find?_some hc
      exact filter_append_single t _ _ (by simp only [flushIssue]; rw [hct]; exact ht)
    · rfl
  · rfl

/-- C2: for every file with no line beginning with the USER instruction,
given a catalog whose first rule titled "Use USER Instruction and specify a
non root user" is `u` (and, as for the real catalog, no rule carrying that
title matches any line of the file), `lint_file` returns exactly one issue
for that rule regardless of file length, anchored at `lines.length - 1` — the
0-based index of the last line, 0 for an empty (or one-line) file, mirroring
the source `max(len(lines) - 1, 0)`. -/
theorem c2_missing_user_issue (rules : List LinterRule) (lines : List String) (u : LinterRule)
    (hu : rules.find? (fun r => r.title = userTitle) = some u)
    (hnou : ∀ l ∈ lines, strStartsWith (pyUpper (pyStrip l)) "USER" = false)
    (hpat : ∀ r ∈ rules, r.title = userTitle → ∀ l ∈ lines,
        r.regex_pattern (pyStrip l) = false) :
    (lint_file rules lines).filter (fun j => j.rule.title = userTitle)
      = [⟨lines.length - 1, u, "No USER instruction found in Dockerfile"⟩] := by
  have hutitle : u.title = userTitle := by simpa using List.find?_some hu
  unfold lint_file
  have hUser : (lintScan rules (lines.any (fun l => isNamedStageLine (pyStrip l))) lines).hasUser
      = false :=
    scanFold_hasUser rules _ lines 1 _ hnou
  have hFilter : ((lintScan rules (lines.any (fun l => isNamedStageLine (pyStrip l)))
      lines).issues).filter (fun j => j.rule.title = userTitle) = [] := by
    rw [show (lintScan rules (lines.any (fun l => isNamedStageLine (pyStrip l))) lines)
        = (List.enumFrom 1 lines).foldl
            (fun st p => processLine rules (lines.any (fun l => isNamedStageLine (pyStrip l)))
              st p.1 p.2) (⟨[], [], false, []⟩ : ScanState) from rfl]
    rw [scanFold_filter userTitle rules _ (by decide) (by decide) lines 1 _
      (fun l hl r hr ht _ => hpat r hr ht l hl)]
    rfl
  rw [eofFlush_filter_ne userTitle _ _ _ (by decide),
    msCheck_filter_ne userTitle _ _ _ _ (by decide),
    userCheck_eq_append _ _ _ _ u hu hUser,
    filter_append_single_pos userTitle _ _ hutitle, hFilter]
  rfl

/-- C2 witness: a concrete one-rule catalog and a one-line file with no USER
line; the issue is anchored at index 0. -/
theorem c2_missing_user_issue_witness :
    (lint_file [⟨"DOCKER_000", userTitle, "", Severity.CRITICAL,
        fun s => strStartsWith (pyUpper s) "USER", ""⟩] ["FROM ubuntu"]).filter
      (fun j => j.rule.title = userTitle)
      = [⟨(["FROM ubuntu"] : List String).length - 1,
          ⟨"DOCKER_000", userTitle, "", Severity.CRITICAL,
            fun s => strStartsWith (pyUpper s) "USER", ""⟩,
          "No USER instruction found in Dockerfile"⟩] :=
  c2_missing_user_issue _ ["FROM ubuntu"] _ rfl (by decide)
    (fun r hr _ l hl => by
      simp only [List.mem_singleton] at hr hl
      subst hr hl
      decide)

/-- A catalog rule carrying the multi-stage title and the executable model of
the repository pattern for it (src/rules.py, `multi_stage_builds`); the
description/suggestion fields are immaterial to the scan. -/
def msRegexRule : LinterRule :=
  ⟨"DOCKER_000", msTitle, "", Severity.MEDIUM, multiStagePattern, ""⟩

/-- C1 (code-bug exhibit): with the repository multi-stage pattern in the
catalog, scanning the one-line file `FROM ubuntu` emits TWO issues sharing
the (line, rule id) pair (1, DOCKER_000) — one from the per-line regex match
and one from the synthesized global check, which never consults
`matched_lines`.  The claimed dedup invariant fails. -/
theorem c1_dedup_violation :
    ((lint_file [msRegexRule] ["FROM ubuntu"]).map issueKey
        = [(1, "DOCKER_000"), (1, "DOCKER_000")])
    ∧ ¬ ((lint_file [msRegexRule] ["FROM ubuntu"]).map issueKey).Nodup := by
  constructor <;> decide

/-- C3 counterexample: with the repository multi-stage pattern, a file with no
named stage gets TWO multi-stage issues (both anchored at line 1), not
exactly one: the per-line regex match and the synthesized global check. -/
theorem c3_counterexample :
    ((lint_file [msRegexRule] ["FROM ubuntu:20.04"]).filter
        (fun j => j.rule.title = msTitle)).map (fun j => j.line_number) = [1, 1] := by
  decide

/-- C3 (amended): (a) a file containing a named build stage line
`FROM <image>[:tag] AS <name>` yields NO multi-stage issue at all, for every
catalog; (b) a file with no named-stage line, given the catalog's first
multi-stage-titled rule `m`, yields exactly one synthesized multi-stage issue
anchored at the first FROM line (or 1) — PROVIDED no multi-stage-titled
rule's own pattern matches a line of the file (otherwise the per-line path
adds further ones, see the counterexample). -/
theorem c3_multistage :
    (∀ (rules : List LinterRule) (lines : List String),
        lines.any (fun l => isNamedStageLine (pyStrip l)) = true →
        (lint_file rules lines).filter (fun j => j.rule.title = msTitle) = [])
    ∧ (∀ (rules : List LinterRule) (lines : List String) (m : LinterRule),
        lines.any (fun l => isNamedStageLine (pyStrip l)) = false →
        rules.find? (fun r => r.title = msTitle) = some m →
        (∀ r ∈ rules, r.title = msTitle → ∀ l ∈ lines,
            r.regex_pattern (pyStrip l) = false) →
        (lint_file rules lines).filter (fun j => j.rule.title = msTitle)
          = [⟨firstFromLine lines, m, msMsg⟩]) := by
  constructor
  · intro rules lines hns
    unfold lint_file
    rw [hns]
    rw [eofFlush_filter_ne msTitle _ _ _ (by decide), msCheck_skip,
      userCheck_filter_ne msTitle _ _ _ _ (by decide)]
    rw [show lintScan rules true lines
        = (List.enumFrom 1 lines).foldl (fun st p => processLine rules true st p.1 p.2)
            (⟨[], [], false, []⟩ : ScanState) from rfl]
    rw [scanFold_filter msTitle rules true (by decide) (by decide) lines 1 _
      (fun l hl r hr ht hg => absurd hg (by simp [ht]))]
    rfl
  · intro rules lines m hns hm hpat
    have hmt : m.title = msTitle := by simpa using List.find?_some hm
    unfold lint_file
    rw [hns]
    rw [eofFlush_filter_ne msTitle _ _ _ (by decide),
      msCheck_eq_append rules lines _ m hm,
      filter_append_single_pos msTitle _ _ hmt,
      userCheck_filter_ne msTitle _ _ _ _ (by decide)]
    rw [show lintScan rules false lines
        = (List.enumFrom 1 lines).foldl (fun st p => processLine rules false st p.1 p.2)
            (⟨[], [], false, []⟩ : ScanState) from rfl]
    rw [scanFold_filter msTitle rules false (by decide) (by decide) lines 1 _
      (fun l hl r hr ht _ => hpat r hr ht l hl)]
    rfl

/-- C3 witness: a named-stage file yields no multi-stage issue, and a file
without one (against a catalog whose multi-stage rule pattern matches no
line) yields exactly the synthesized issue at the first FROM line. -/
theorem c3_multistage_witness :
    (lint_file [msRegexRule] ["FROM ubuntu AS builder", "RUN ls"]).filter
        (fun j => j.rule.title = msTitle) = []
    ∧ (lint_file [⟨"DOCKER_000", msTitle, "", Severity.MEDIUM, fun _ => false, ""⟩]
        ["FROM ubuntu"]).filter (fun j => j.rule.title = msTitle)
        = [⟨firstFromLine ["FROM ubuntu"],
            ⟨"DOCKER_000", msTitle, "", Severity.MEDIUM, fun _ => false, ""⟩, msMsg⟩] :=
  ⟨c3_multistage.1 [msRegexRule] ["FROM ubuntu AS builder", "RUN ls"] (by decide),
   c3_multistage.2 _ ["FROM ubuntu"] _ (by decide) rfl
     (fun r hr _ l hl => by
       simp only [List.mem_singleton] at hr hl
       subst hr hl
       rfl)⟩

/-- Per-line effect of the scan on "combine" issues: nothing changes except
that a non-skipped, non-RUN line flushes a buffer of length at least 2 into a
single issue anchored at the buffer head. -/
theorem processLine_filter_combine (rules : List LinterRule) (c : LinterRule)
    (hc : rules.find? (fun r => r.title = combineTitle) = some c) (hNS : Bool)
    (st : ScanState) (n : Nat) (orig : String)
    (hR : ∀ r ∈ rules, r.title = combineTitle → r.regex_pattern (pyStrip orig) = false) :
    ((processLine rules hNS st n orig).issues).filter (fun j => j.rule.title = combineTitle)
      = st.issues.filter (fun j => j.rule.title = combineTitle)
          ++ (if skipLine orig = false ∧ isRunStart (pyStrip orig) = false
                ∧ 1 < st.runBuf.length
              then [flushIssue c (st.runBuf.headD (0, "")).1] else []) := by
  have hct : c.title = combineTitle := by simpa using List.find?_some hc
  unfold processLine
  by_cases hskip : skipLine orig = true
  · rw [if_pos hskip]
    simp [hskip]
  · have hskipf : skipLine orig = false := by
      revert hskip
      cases skipLine orig <;> simp
    rw [if_neg (by simp [hskipf])]
    rw [foldl_ruleStep_filter combineTitle hNS n (pyStrip orig) orig rules _
      (fun r hr ht _ => hR r hr ht),
      workdirStep_filter combineTitle rules _ n (pyStrip orig) orig (by decide)]
    rw [show ((if strStartsWith (pyUpper (pyStrip orig)) "USER" = true then
        { runTrackStep rules st n (pyStrip orig) with hasUser := true }
      else runTrackStep rules st n (pyStrip orig)) : ScanState).issues
        = (runTrackStep rules st n (pyStrip orig)).issues from
      userFlag_issues _ _]
    unfold runTrackStep
    by_cases hrun : isRunStart (pyStrip orig) = true
    · rw [if_pos hrun]
      simp [hskipf, hrun]
    · have hrunf : isRunStart (pyStrip orig) = false := by
        revert hrun
        cases isRunStart (pyStrip orig) <;> simp
      rw [if_neg (by simp [hrunf])]
      by_cases hlen : 1 < st.runBuf.length
      · rw [if_pos hlen, hc]
        change List.filter _ (st.issues ++ [flushIssue c (st.runBuf.headD (0, "")).1]) = _
        rw [filter_append_single_pos combineTitle _ _ (by simp only [flushIssue]; exact hct)]
        simp [hskipf, hrunf, hlen]
      · rw [if_neg hlen]
        simp [hskipf, hrunf, hlen]

/-- Correspondence between the scan's RUN buffer and the state of the
run-anchor specification: `none` means an empty buffer; `some (a, k)` means a
buffer of length `k ≥ 1` whose head is anchored at line `a`. -/
def runInv (st : ScanState) : Option (Nat × Nat) → Prop
  | none => st.runBuf = []
  | some ak => st.runBuf.length = ak.2 ∧ (st.runBuf.headD (0, "")).1 = ak.1 ∧ 1 ≤ ak.2

theorem headD_append_single (l : List (Nat × String)) (x d : Nat × String) (h : l ≠ []) :
    (l ++ [x]).headD d = l.headD d := by
  cases l <;> simp_all

theorem processLine_skip (rules : List LinterRule) (hNS : Bool) (st : ScanState) (n : Nat)
    (orig : String) (h : skipLine orig = true) : processLine rules hNS st n orig = st := by
  unfold processLine
  rw [if_pos h]

/-- Master invariant of the consecutive-RUN tracking: over any segment of the
scan, the "combine" issues produced are exactly the `runAnchorsMid` anchors of
the segment's non-skipped lines, and the buffer stays in correspondence with
the specification state. -/
theorem scanFold_combine (rules : List LinterRule) (c : LinterRule)
    (hc : rules.find? (fun r => r.title = combineTitle) = some c) (hNS : Bool) :
    ∀ (lines : List String) (k : Nat) (st : ScanState) (cur : Option (Nat × Nat)),
      (∀ l ∈ lines, ∀ r ∈ rules, r.title = combineTitle →
          r.regex_pattern (pyStrip l) = false) →
      runInv st cur →
      ((((List.enumFrom k lines).foldl (fun st p => processLine rules hNS st p.1 p.2)
            st)).issues).filter (fun j => j.rule.title = combineTitle)
          = st.issues.filter (fun j => j.rule.title = combineTitle)
            ++ ((runAnchorsMid ((List.enumFrom k lines).filter (fun p => !skipLine p.2))
                cur).1).map (flushIssue c)
        ∧ runInv
            ((List.enumFrom k lines).foldl (fun st p => processLine rules hNS st p.1 p.2) st)
            ((runAnchorsMid ((List.enumFrom k lines).filter (fun p => !skipLine p.2)) cur).2) := by
  intro lines
  induction lines with
  | nil =>
    intro k st cur _ hinv
    exact ⟨by simp [runAnchorsMid], hinv⟩
  | cons l rest ih =>
    intro k st cur hpat hinv
    have hpatl := fun r hr ht => hpat l (List.mem_cons_self l rest) r hr ht
    have hpatrest := fun x hx => hpat x (List.mem_cons_of_mem l hx)
    simp only [List.enumFrom, List.foldl_cons, List.filter_cons]
    by_cases hskip : skipLine l = true
    · rw [show (!skipLine l) = false from by rw [hskip]; rfl]
      simp only [Bool.false_eq_true, if_false]
      rw [processLine_skip rules hNS st k l hskip]
      exact ih (k + 1) st cur hpatrest hinv
    · have hskipf : skipLine l = false := by
        revert hskip
        cases skipLine l <;> simp
      rw [show (!skipLine l) = true from by rw [hskipf]; rfl]
      simp only [if_true]
      have hfilter := processLine_filter_combine rules c hc hNS st k l hpatl
      have hrb := processLine_runBuf rules hNS st k l
      rw [hskipf] at hrb
      simp only [Bool.false_eq_true, if_false] at hrb
      by_cases hrun : isRunStart (pyStrip l) = true
      · rw [if_pos hrun] at hrb
        simp only [runAnchorsMid, hrun, if_true]
        have hdelta : ((processLine rules hNS st k l).issues).filter
            (fun j => j.rule.title = combineTitle)
            = st.issues.filter (fun j => j.rule.title = combineTitle) := by
          rw [hfilter]
          simp [hrun]
        rcases cur with _ | ⟨a, kk⟩
        · have hinv' : runInv (processLine rules hNS st k l) (some (k, 1)) := by
            refine ⟨?_, ?_, le_refl 1⟩
            · rw [hrb, hinv]
              rfl
            · rw [hrb, hinv]
              rfl
          obtain ⟨h1, h2⟩ := ih (k + 1) (processLine rules hNS st k l) (some (k, 1))
            hpatrest hinv'
          exact ⟨by rw [h1, hdelta], h2⟩
        · obtain ⟨hlen, hhead, hpos⟩ := hinv
          have hne : st.runBuf ≠ [] := by
            intro h0
            rw [h0] at hlen
            simp at hlen
            omega
          have hinv' : runInv (processLine rules hNS st k l) (some (a, kk + 1)) := by
            refine ⟨?_, ?_, by omega⟩
            · rw [hrb]
              simp [hlen]
            · rw [hrb, headD_append_single _ _ _ hne]
              exact hhead
          obtain ⟨h1, h2⟩ := ih (k + 1) (processLine rules hNS st k l) (some (a, kk + 1))
            hpatrest hinv'
          exact ⟨by rw [h1, hdelta], h2⟩
      · have hrunf : isRunStart (pyStrip l) = false := by
          revert hrun
          cases isRunStart (pyStrip l) <;> simp
        rw [if_neg (by simp [hrunf])] at hrb
        simp only [runAnchorsMid, hrunf, Bool.false_eq_true, if_false]
        have hinv' : runInv (processLine rules hNS st k l) none := hrb
        obtain ⟨h1, h2⟩ := ih (k + 1) (processLine rules hNS st k l) none hpatrest hinv'
        refine ⟨?_, h2⟩
        rw [h1, hfilter]
        rcases cur with _ | ⟨a, kk⟩
        · rw [hinv]
          simp
        · obtain ⟨hlen, hhead, hpos⟩ := hinv
          simp only at hlen hhead hpos
          by_cases hkk : 2 ≤ kk
          · rw [if_pos (show skipLine l = false ∧ isRunStart (pyStrip l) = false
                ∧ 1 < st.runBuf.length from ⟨hskipf, hrunf, by omega⟩)]
            rw [hhead]
            simp [hkk, List.map_append]
          · rw [if_neg (show ¬(skipLine l = false ∧ isRunStart (pyStrip l) = false
                ∧ 1 < st.runBuf.length) from fun hcon => hkk (by omega))]
            simp [hkk]

theorem eofFlush_filter_combine (rules : List LinterRule) (c : LinterRule)
    (hc : rules.find? (fun r => r.title = combineTitle) = some c) (st : ScanState)
    (cur : Option (Nat × Nat)) (hinv : runInv st cur) (xs : List LinterIssue) :
    (eofFlush rules st xs).filter (fun j => j.rule.title = combineTitle)
      = xs.filter (fun j => j.rule.title = combineTitle)
          ++ (flushAnchors cur).map (flushIssue c) := by
  have hct : c.title = combineTitle := by simpa using List.find?_some hc
  unfold eofFlush
  rcases cur with _ | ⟨a, kk⟩
  · rw [if_neg (by rw [show st.runBuf = [] from hinv]; simp)]
    simp [flushAnchors]
  · obtain ⟨hlen, hhead, hpos⟩ := hinv
    simp only at hlen hhead hpos
    by_cases hkk : 2 ≤ kk
    · rw [if_pos (by omega), hc,
        filter_append_single_pos combineTitle _ _ (by simp only [flushIssue]; exact hct),
        hhead]
      simp [flushAnchors, hkk]
    · rw [if_neg (by omega)]
      simp [flushAnchors, hkk]

/-- C4: the "combine consecutive RUN commands" issues of a scan are exactly
one issue per maximal group of at least two consecutive RUN lines (comments
and blank lines being skipped, not group-breaking), each anchored at the
group's first line, including the group still buffered when the last line is
processed (flushed once more at end of file) — provided, as for the real
catalog, no combine-titled rule's own pattern matches a single line.  Three
consecutive RUN lines thus yield exactly one issue anchored at the first of
the three, and two groups split by an unrelated instruction yield exactly
two. -/
theorem c4_combine_runs (rules : List LinterRule) (lines : List String) (c : LinterRule)
    (hc : rules.find? (fun r => r.title = combineTitle) = some c)
    (hpat : ∀ r ∈ rules, r.title = combineTitle → ∀ l ∈ lines,
        r.regex_pattern (pyStrip l) = false) :
    (lint_file rules lines).filter (fun j => j.rule.title = combineTitle)
      = (runAnchors lines).map (flushIssue c) := by
  simp only [lint_file, runAnchors]
  obtain ⟨h1, h2⟩ := scanFold_combine rules c hc
    (lines.any (fun l => isNamedStageLine (pyStrip l))) lines 1
    (⟨[], [], false, []⟩ : ScanState) none
    (fun l hl r hr ht => hpat r hr ht l hl) rfl
  rw [show lintScan rules (lines.any (fun l => isNamedStageLine (pyStrip l))) lines
      = (List.enumFrom 1 lines).foldl
          (fun st p => processLine rules (lines.any (fun l => isNamedStageLine (pyStrip l)))
            st p.1 p.2) (⟨[], [], false, []⟩ : ScanState) from rfl]
  rw [eofFlush_filter_combine rules c hc _ _ h2,
    msCheck_filter_ne combineTitle _ _ _ _ (by decide),
    userCheck_filter_ne combineTitle _ _ _ _ (by decide),
    h1]
  simp [List.map_append]

/-- C4 witness: a three-RUN group, an unrelated instruction, then a two-RUN
group flushed at end of file: exactly two combine issues, anchored at lines 1
and 5. -/
theorem c4_combine_runs_witness :
    (lint_file [⟨"DOCKER_000", combineTitle, "", Severity.MEDIUM, fun _ => false, ""⟩]
        ["RUN a", "RUN b", "RUN c", "COPY x", "RUN d", "RUN e"]).filter
      (fun j => j.rule.title = combineTitle)
      = (runAnchors ["RUN a", "RUN b", "RUN c", "COPY x", "RUN d", "RUN e"]).map
          (flushIssue ⟨"DOCKER_000", combineTitle, "", Severity.MEDIUM, fun _ => false, ""⟩) :=
  c4_combine_runs _ ["RUN a", "RUN b", "RUN c", "COPY x", "RUN d", "RUN e"] _ rfl
    (fun r hr _ l hl => by
      simp only [List.mem_singleton] at hr
      subst hr
      rfl)

/-! ## Properties of the modelled whole-file pass (C5) -/

theorem mlGo_append (recorded : List (Nat × String)) (rid : String) (content : String) :
    ∀ (starts : List Nat) (acc : List MLIssue),
      ∃ t, mlGo recorded rid content acc starts = acc ++ t := by
  intro starts
  induction starts with
  | nil => intro acc; exact ⟨[], by simp [mlGo]⟩
  | cons s rest ih =>
    intro acc
    simp only [mlGo]
    split_ifs
    · exact ih acc
    · obtain ⟨t, ht⟩ := ih (acc ++ [⟨lineOfPos content s, rid⟩])
      exact ⟨⟨lineOfPos content s, rid⟩ :: t, by rw [ht]; simp⟩

theorem mlGo_sound (recorded : List (Nat × String)) (rid : String) (content : String) :
    ∀ (starts : List Nat) (acc : List MLIssue) (i : MLIssue),
      i ∈ mlGo recorded rid content acc starts →
      i ∈ acc ∨ (i.rule_id = rid ∧ (i.line_number, rid) ∉ recorded ∧
        ∃ s ∈ starts, i.line_number = lineOfPos content s) := by
  intro starts
  induction starts with
  | nil =>
    intro acc i hi
    exact Or.inl (by simpa [mlGo] using hi)
  | cons s rest ih =>
    intro acc i hi
    simp only [mlGo] at hi
    split_ifs at hi with hguard
    · rcases ih acc i hi with h | ⟨h1, h2, s', hs', h3⟩
      · exact Or.inl h
      · exact Or.inr ⟨h1, h2, s', List.mem_cons_of_mem s hs', h3⟩
    · rcases ih _ i hi with h | ⟨h1, h2, s', hs', h3⟩
      · rcases List.mem_append.mp h with h | h
        · exact Or.inl h
        · simp only [List.mem_singleton] at h
          subst h
          refine Or.inr ⟨rfl, ?_, s, List.mem_cons_self s rest, rfl⟩
          intro hmem
          exact hguard (by simp [hmem])
      · exact Or.inr ⟨h1, h2, s', List.mem_cons_of_mem s hs', h3⟩

theorem mlGo_keys_nodup (recorded : List (Nat × String)) (rid : String) (content : String) :
    ∀ (starts : List Nat) (acc : List MLIssue),
      (∀ i ∈ acc, i.rule_id = rid) →
      (acc.map (fun i => (i.line_number, i.rule_id))).Nodup →
      ((mlGo recorded rid content acc starts).map
        (fun i => (i.line_number, i.rule_id))).Nodup := by
  intro starts
  induction starts with
  | nil =>
    intro acc h1 h2
    simpa [mlGo] using h2
  | cons s rest ih =>
    intro acc h1 h2
    simp only [mlGo]
    split_ifs with hguard
    · exact ih acc h1 h2
    · apply ih
      · intro i hi
        rcases List.mem_append.mp hi with h | h
        · exact h1 i h
        · simp only [List.mem_singleton] at h
          subst h
          rfl
      · rw [List.map_append]
        refine List.Nodup.append h2 (by simp) ?_
        intro p hp hq
        simp only [List.map_cons, List.map_nil, List.mem_singleton] at hq
        subst hq
        simp only [List.mem_map] at hp
        obtain ⟨i, hiacc, hikey⟩ := hp
        apply hguard
        have hline : i.line_number = lineOfPos content s := congrArg Prod.fst hikey
        have hrid : i.rule_id = rid := by
          rw [h1 i hiacc]
        refine Bool.or_eq_true_iff.mpr (Or.inr ?_)
        refine List.any_eq_true.mpr ⟨i, hiacc, ?_⟩
        simp [hline, hrid]

theorem mlGo_complete (recorded : List (Nat × String)) (rid : String) (content : String) :
    ∀ (starts : List Nat) (acc : List MLIssue), ∀ s ∈ starts,
      ((lineOfPos content s, rid) ∈ recorded ∨
        ∃ i ∈ acc, i.line_number = lineOfPos content s ∧ i.rule_id = rid) ∨
        ∃ i ∈ mlGo recorded rid content acc starts,
          i.line_number = lineOfPos content s ∧ i.rule_id = rid := by
  intro starts
  induction starts with
  | nil =>
    intro acc s hs
    simp at hs
  | cons s0 rest ih =>
    intro acc s hs
    simp only [mlGo]
    rcases List.mem_cons.mp hs with rfl | hs'
    · split_ifs with hguard
      · rcases Bool.or_eq_true_iff.mp hguard with hg | hg
        · exact Or.inl (Or.inl (by simpa using hg))
        · obtain ⟨i, hiacc, hikey⟩ := List.any_eq_true.mp hg
          simp only [Bool.and_eq_true, decide_eq_true_eq] at hikey
          obtain ⟨t, ht⟩ := mlGo_append recorded rid content rest acc
          exact Or.inr ⟨i, by rw [ht]; exact List.mem_append_left t hiacc,
            hikey.1, hikey.2⟩
      · obtain ⟨t, ht⟩ := mlGo_append recorded rid content rest
          (acc ++ [⟨lineOfPos content s, rid⟩])
        refine Or.inr ⟨⟨lineOfPos content s, rid⟩, ?_, rfl, rfl⟩
        rw [ht]
        exact List.mem_append_left t (List.mem_append_right acc (by simp))
    · split_ifs with hguard
      · rcases ih acc s hs' with h | h
        · exact Or.inl h
        · exact Or.inr h
      · rcases ih (acc ++ [⟨lineOfPos content s0, rid⟩]) s hs' with h | h
        · rcases h with h | ⟨i, hi, hkey⟩
          · exact Or.inl (Or.inl h)
          · rcases List.mem_append.mp hi with h2 | h2
            · exact Or.inl (Or.inr ⟨i, h2, hkey⟩)
            · simp only [List.mem_singleton] at h2
              subst h2
              obtain ⟨t, ht⟩ := mlGo_append recorded rid content rest
                (acc ++ [⟨lineOfPos content s0, rid⟩])
              refine Or.inr ⟨⟨lineOfPos content s0, rid⟩, ?_, hkey.1, hkey.2⟩
              rw [ht]
              exact List.mem_append_left t (List.mem_append_right acc (by simp))
        · exact Or.inr h

/-- C5 (spec-modelled): for every rule marked as operating over the whole
file, the pass runs the rule's finditer-style global search over the full
text; every emitted issue carries the rule's id, a line number equal to one
plus the count of newline characters preceding its match start, and a
(line, rule id) pair not already recorded; no two emitted issues share a
(line, rule id) pair; and every match start is represented — either its pair
was already recorded, or an issue at its line is emitted. -/
theorem c5_whole_file_pass (recorded : List (Nat × String)) (r : WholeFileRule)
    (content : String) (hw : r.wholeFile = true) :
    (∀ i ∈ multiLinePass recorded r content,
        i.rule_id = r.id ∧ (i.line_number, r.id) ∉ recorded ∧
          ∃ s ∈ r.matchStarts content, i.line_number = lineOfPos content s)
    ∧ ((multiLinePass recorded r content).map (fun i => (i.line_number, i.rule_id))).Nodup
    ∧ (∀ s ∈ r.matchStarts content,
        (lineOfPos content s, r.id) ∈ recorded ∨
          ∃ i ∈ multiLinePass recorded r content,
            i.line_number = lineOfPos content s ∧ i.rule_id = r.id) := by
  unfold multiLinePass
  rw [hw]
  simp only [if_true]
  refine ⟨?_, ?_, ?_⟩
  · intro i hi
    rcases mlGo_sound recorded r.id content (r.matchStarts content) [] i hi with h | h
    · simp at h
    · exact h
  · exact mlGo_keys_nodup recorded r.id content (r.matchStarts content) []
      (by intro i hi; simp at hi) (by simp)
  · intro s hs
    rcases mlGo_complete recorded r.id content (r.matchStarts content) [] s hs with h | h
    · rcases h with h | ⟨i, hi, _⟩
      · exact Or.inl h
      · simp at hi
    · exact Or.inr h

/-- A concrete whole-file rule for the C5 witness: matches at offsets 0 and 6
of the text. -/
def wfRuleEx : WholeFileRule := ⟨"R1", "two runs", true, fun _ => [0, 6]⟩

/-- C5 witness: the soundness conjunct applied to the first emitted issue of
a concrete two-line text. -/
theorem c5_whole_file_pass_witness :
    (⟨1, "R1"⟩ : MLIssue).rule_id = wfRuleEx.id
      ∧ ((⟨1, "R1"⟩ : MLIssue).line_number, wfRuleEx.id) ∉ ([] : List (Nat × String))
      ∧ ∃ s ∈ wfRuleEx.matchStarts "RUN a\nRUN b",
          (⟨1, "R1"⟩ : MLIssue).line_number = lineOfPos "RUN a\nRUN b" s :=
  (c5_whole_file_pass [] wfRuleEx "RUN a\nRUN b" rfl).1 ⟨1, "R1"⟩ (by decide)
